import Mathlib

set_option maxRecDepth 100000

/-!
Shallow embedding of the SIR cellular-automaton core of this repository:
the bit-packed grid, Moore-neighborhood enumeration, spatial tiling and the
per-step transition engine (src/utils/grid.rs, src/utils/simulation.rs,
src/utils/maths.rs).

Modelling conventions:
* `usize` values are `Nat`; `u8` bytes are `Nat` with the range invariant
  `< 256` carried in `Grid.WF` (all byte updates are closed under it).
* Rust panics (slice index out of bounds, `unreachable!` on the invalid bit
  pattern, `unwrap` on `None`, division by zero) are modelled as `Option`
  (`none` = panic) or as an explicit error value where the source reports a
  dedicated message.
* `f64` probabilities and random draws are modelled over `ℚ`.  The
  process-wide RNG is determinized as an explicit oracle giving the uniform
  draw consumed for a given cell (each cell transition consumes at most one
  draw per step, and grid initialization one draw per linear index).
-/

namespace SIR

/-- grid.rs `HealthState`: two-bit encoding for three health states. -/
inductive HealthState where
  | Susceptible
  | Infected
  | Recovered
deriving DecidableEq

/-- The discriminant `state as u8` of the Rust enum (`repr(u8)`: 0, 1, 2). -/
def encode : HealthState → Nat
  | .Susceptible => 0
  | .Infected => 1
  | .Recovered => 2

/-- The decoding match in `Grid::read`; bit pattern 3 hits the source's
`unreachable!("Invalid state bits")` panic, modelled as `none`. -/
def decode2 : Nat → Option HealthState
  | 0 => some .Susceptible
  | 1 => some .Infected
  | 2 => some .Recovered
  | _ => none

/-- maths.rs `SirParams` (all fields `f64`, modelled over `ℚ`). -/
structure SirParams where
  beta : ℚ
  gamma : ℚ
  dt : ℚ
  i_ratio : ℚ
  s_ratio : ℚ
deriving DecidableEq

/-- grid.rs `Grid`: flat bit-packed buffer, 2 bits per cell, 4 cells per
byte (`cells: Vec<u8>` becomes a list of byte values). -/
structure Grid where
  grid_x : Nat
  grid_y : Nat
  cells : List Nat
deriving DecidableEq

/-- The cell count `grid_x * grid_y` (the `size` local of `Grid::init`). -/
def Grid.size (g : Grid) : Nat := g.grid_x * g.grid_y

/-- `Grid::get_index`: linear index `y * grid_x + x`. -/
def Grid.get_index (g : Grid) (x y : Nat) : Nat := y * g.grid_x + x

/-- The byte update performed by `Grid::write` and `Grid::write_state`:
`(cells[byte] & !(0b11 << shift)) | ((state as u8) << shift)` in `u8`
arithmetic (the complement of `0b11 << shift` in 8 bits is
`255 ^^^ (3 <<< shift)`). -/
def writeByte (b shift e : Nat) : Nat :=
  (b &&& (255 ^^^ (3 <<< shift))) ||| (e <<< shift)

/-- `Grid::write_state`: raw buffer write; the slice access `cells[byte]`
panics when out of bounds (`none`). -/
def write_state (cells : List Nat) (idx : Nat) (state : HealthState) :
    Option (List Nat) :=
  match cells[idx / 4]? with
  | none => none
  | some b => some (cells.set (idx / 4) (writeByte b ((idx % 4) * 2) (encode state)))

/-- `Grid::read`: decode the 2-bit field at `(idx / 4, (idx % 4) * 2)`;
an out-of-bounds byte access or the invalid pattern 3 panics (`none`). -/
def Grid.read (g : Grid) (idx : Nat) : Option HealthState :=
  match g.cells[idx / 4]? with
  | none => none
  | some b => decode2 ((b >>> ((idx % 4) * 2)) &&& 3)

/-- `Grid::write`: same byte update as `write_state`, on the grid's own
buffer. -/
def Grid.write (g : Grid) (idx : Nat) (state : HealthState) : Option Grid :=
  (write_state g.cells idx state).map fun cs => { g with cells := cs }

/-- No 2-bit field of the byte holds the invalid pattern 3. -/
def Valid4 (b : Nat) : Prop := ∀ j < 4, (b >>> (j * 2)) &&& 3 ≠ 3

instance (b : Nat) : Decidable (Valid4 b) := by unfold Valid4; infer_instance

/-- Representation invariants of a well-formed grid value: the packed length
chosen by `Grid::init` and the `u8` range of every byte. -/
def Grid.WF (g : Grid) : Prop :=
  g.cells.length = (g.size + 3) / 4 ∧ ∀ b ∈ g.cells, b < 256

/-- Every in-bounds cell decodes to a valid state (the `unreachable!` branch
of `Grid::read` is dead). -/
def Grid.Decodable (g : Grid) : Prop := ∀ i < g.size, (g.read i).isSome

instance (g : Grid) : Decidable g.Decodable := by
  unfold Grid.Decodable
  infer_instance

/-! ### Bit-level facts about the packed byte update -/

theorem writeByte_get_self :
    ∀ b < 256, ∀ j < 4, ∀ e < 3,
      writeByte b (j * 2) e >>> (j * 2) &&& 3 = e := by decide

theorem writeByte_get_other :
    ∀ b < 256, ∀ j < 4, ∀ j2 < 4, ∀ e < 3, j ≠ j2 →
      writeByte b (j * 2) e >>> (j2 * 2) &&& 3 = b >>> (j2 * 2) &&& 3 := by
  decide

theorem writeByte_lt (b : Nat) : ∀ j < 4, ∀ e < 3, writeByte b (j * 2) e < 256 := by
  intro j hj e he
  have h3 : 3 <<< (j * 2) < 2 ^ 8 := by interval_cases j <;> decide
  have hmask : 255 ^^^ 3 <<< (j * 2) < 2 ^ 8 := @Nat.xor_lt_two_pow 255 _ 8 (by norm_num) h3
  have h1 : b &&& (255 ^^^ 3 <<< (j * 2)) < 2 ^ 8 := Nat.and_lt_two_pow b hmask
  have h2 : e <<< (j * 2) < 2 ^ 8 := by interval_cases j <;> interval_cases e <;> decide
  have hall := Nat.or_lt_two_pow h1 h2
  have h256 : (2 : Nat) ^ 8 = 256 := by norm_num
  rw [h256] at hall
  exact hall

theorem encode_lt (s : HealthState) : encode s < 3 := by cases s <;> decide

theorem decode2_encode (s : HealthState) : decode2 (encode s) = some s := by
  cases s <;> rfl

/-! ### The write/read contract of the packed buffer -/

/-- An in-bounds `Grid::write` on a well-formed buffer succeeds, reads back
the written state, leaves every other linear index's decoded state
unchanged, and preserves the representation invariants (including
validity of all 2-bit fields). -/
theorem Grid.write_spec (g : Grid) (hlen : g.cells.length = (g.size + 3) / 4)
    (hb : ∀ b ∈ g.cells, b < 256) {idx : Nat} (hidx : idx < g.size) (s : HealthState) :
    ∃ g2, g.write idx s = some g2 ∧ g2.grid_x = g.grid_x ∧ g2.grid_y = g.grid_y ∧
      g2.cells.length = g.cells.length ∧ (∀ b ∈ g2.cells, b < 256) ∧
      g2.read idx = some s ∧ (∀ j, j ≠ idx → g2.read j = g.read j) ∧
      ((∀ b ∈ g.cells, Valid4 b) → ∀ b ∈ g2.cells, Valid4 b) := by
  have hb4 : idx / 4 < g.cells.length := by omega
  have hget : g.cells[idx / 4]? = some g.cells[idx / 4] := List.getElem?_eq_getElem hb4
  have hblt : g.cells[idx / 4] < 256 := hb _ (List.getElem_mem hb4)
  have hr4 : idx % 4 < 4 := by omega
  set b := g.cells[idx / 4] with hbdef
  set nb := writeByte b ((idx % 4) * 2) (encode s) with hnbdef
  have hnblt : nb < 256 := writeByte_lt b (idx % 4) hr4 (encode s) (encode_lt s)
  refine ⟨{ g with cells := g.cells.set (idx / 4) nb }, ?_, rfl, rfl, by simp, ?_, ?_, ?_, ?_⟩
  · simp [Grid.write, write_state, hget]
  · intro b2 hb2
    rcases List.mem_or_eq_of_mem_set hb2 with h | h
    · exact hb _ h
    · exact h ▸ hnblt
  · show Grid.read _ idx = some s
    unfold Grid.read
    simp only [List.getElem?_set_self hb4]
    rw [hnbdef, writeByte_get_self b hblt (idx % 4) hr4 (encode s) (encode_lt s),
      decode2_encode]
  · intro j hj
    unfold Grid.read
    by_cases hj4 : j / 4 = idx / 4
    · have hrne : j % 4 ≠ idx % 4 := by omega
      rw [hj4]
      simp only [List.getElem?_set_self hb4, hget]
      rw [hnbdef,
        writeByte_get_other b hblt (idx % 4) hr4 (j % 4) (by omega) (encode s)
          (encode_lt s) (fun hc => hrne hc.symm)]
    · rw [List.getElem?_set_ne (fun hc => hj4 hc.symm)]
  · intro hprev b2 hb2
    rcases List.mem_or_eq_of_mem_set hb2 with h | h
    · exact hprev _ h
    · subst h
      intro j2 hj2
      by_cases hsame : j2 = idx % 4
      · subst hsame
        rw [hnbdef, writeByte_get_self b hblt _ (by omega) (encode s) (encode_lt s)]
        have := encode_lt s
        omega
      · rw [hnbdef,
          writeByte_get_other b hblt (idx % 4) hr4 j2 hj2 (encode s) (encode_lt s)
            (fun hc => hsame hc.symm)]
        exact hprev b (List.getElem_mem hb4) j2 hj2

/-- C9: encode/decode round trip through the packed buffer.  Decoding is a
left inverse of encoding; reading an in-bounds index right after writing it
returns the written state, and every other in-bounds index's decoded state
is untouched. -/
theorem C9_encode_decode_roundtrip (g : Grid) (hWF : g.WF) (idx : Nat)
    (hidx : idx < g.size) (s : HealthState) :
    (∀ t : HealthState, decode2 (encode t) = some t) ∧
    ∃ g2, g.write idx s = some g2 ∧ g2.read idx = some s ∧
      ∀ j < g.size, j ≠ idx → g2.read j = g.read j := by
  obtain ⟨g2, hw, -, -, -, -, hself, hother, -⟩ := g.write_spec hWF.1 hWF.2 hidx s
  exact ⟨decode2_encode, g2, hw, hself, fun j _ hj => hother j hj⟩

theorem C9_encode_decode_roundtrip_witness :
    (∀ t : HealthState, decode2 (encode t) = some t) ∧
    ∃ g2, (Grid.mk 2 2 [0]).write 1 .Infected = some g2 ∧
      g2.read 1 = some .Infected ∧
      ∀ j < (Grid.mk 2 2 [0]).size, j ≠ 1 →
        g2.read j = (Grid.mk 2 2 [0]).read j :=
  C9_encode_decode_roundtrip (Grid.mk 2 2 [0]) (by constructor <;> decide) 1
    (by decide) .Infected

/-! ### Grid construction (`Grid::init`) -/

/-- The fatal conditions of `Grid::init`, one per Rust panic site:
`checked_mul(...).expect("Grid dimensions overflowed")`, the explicit
`panic!("Grid too large: ...")`, and the (dead) slice-index panic inside the
fill loop's `write_state`. -/
inductive InitError where
  | DimensionOverflow
  | GridTooLarge
  | CellIndexOutOfBounds
deriving DecidableEq

/-- `usize::MAX` of the modelled 64-bit platform. -/
def USIZE_MAX : Nat := 2 ^ 64 - 1

/-- The `MAX_CELLS` ceiling of `Grid::init`. -/
def MAX_CELLS : Nat := 1000000000

/-- The per-cell draw of the fill loop: Infected when the uniform roll is
below `i_ratio`, Susceptible otherwise. -/
def initState (params : SirParams) (r : ℚ) : HealthState :=
  if r < params.i_ratio then .Infected else .Susceptible

/-- The fill loop of `Grid::init`: `for idx in 0..size { ... write_state ... }`. -/
def fillCells (params : SirParams) (roll : Nat → ℚ) (size : Nat)
    (cells0 : List Nat) : Option (List Nat) :=
  (List.range size).foldlM
    (fun cs idx => write_state cs idx (initState params (roll idx))) cells0

/-- `Grid::init`: overflow check, cell-count ceiling check, allocation of
`ceil(size/4)` zero bytes, then the random fill (`roll` is the RNG oracle,
one uniform draw per linear index). -/
def Grid.init (grid_x grid_y : Nat) (params : SirParams) (roll : Nat → ℚ) :
    Except InitError Grid :=
  if grid_x * grid_y > USIZE_MAX then .error .DimensionOverflow
  else if grid_x * grid_y > MAX_CELLS then .error .GridTooLarge
  else
    match fillCells params roll (grid_x * grid_y)
        (List.replicate ((grid_x * grid_y + 3) / 4) 0) with
    | some cells => .ok { grid_x := grid_x, grid_y := grid_y, cells := cells }
    | none => .error .CellIndexOutOfBounds

/-- Raw-buffer analogue of `Grid.write_spec` for `write_state`. -/
theorem write_state_spec (cs : List Nat) (idx : Nat) (s : HealthState)
    (h4 : idx / 4 < cs.length) (hb : ∀ b ∈ cs, b < 256) :
    ∃ cs2, write_state cs idx s = some cs2 ∧ cs2.length = cs.length ∧
      (∀ b ∈ cs2, b < 256) ∧ ((∀ b ∈ cs, Valid4 b) → ∀ b ∈ cs2, Valid4 b) := by
  have hget : cs[idx / 4]? = some cs[idx / 4] := List.getElem?_eq_getElem h4
  have hblt : cs[idx / 4] < 256 := hb _ (List.getElem_mem h4)
  refine ⟨cs.set (idx / 4) (writeByte cs[idx / 4] ((idx % 4) * 2) (encode s)),
    by simp [write_state, hget], by simp, ?_, ?_⟩
  · intro b2 hb2
    rcases List.mem_or_eq_of_mem_set hb2 with h | h
    · exact hb _ h
    · exact h ▸ writeByte_lt _ (idx % 4) (by omega) (encode s) (encode_lt s)
  · intro hv b2 hb2
    rcases List.mem_or_eq_of_mem_set hb2 with h | h
    · exact hv _ h
    · subst h
      intro j2 hj2
      by_cases hsame : j2 = idx % 4
      · subst hsame
        rw [writeByte_get_self _ hblt _ (by omega) (encode s) (encode_lt s)]
        have := encode_lt s
        omega
      · rw [writeByte_get_other _ hblt (idx % 4) (by omega) j2 hj2 (encode s)
          (encode_lt s) (fun hc => hsame hc.symm)]
        exact hv _ (List.getElem_mem h4) j2 hj2

/-- A successful `write_state` preserves length, byte range and field
validity. -/
theorem write_state_inv {cs : List Nat} {idx : Nat} {s : HealthState}
    {cs2 : List Nat} (h : write_state cs idx s = some cs2)
    (hb : ∀ b ∈ cs, b < 256) :
    cs2.length = cs.length ∧ (∀ b ∈ cs2, b < 256) ∧
      ((∀ b ∈ cs, Valid4 b) → ∀ b ∈ cs2, Valid4 b) := by
  have h4 : idx / 4 < cs.length := by
    by_contra hc
    have hnone : cs[idx / 4]? = none := List.getElem?_eq_none (by omega)
    unfold write_state at h
    rw [hnone] at h
    exact Option.noConfusion h
  obtain ⟨cs2b, hw, hlen, hbb, hvv⟩ := write_state_spec cs idx s h4 hb
  have : cs2b = cs2 := Option.some.inj (hw.symm.trans h)
  subst this
  exact ⟨hlen, hbb, hvv⟩

/-- The fill loop succeeds whenever every written index stays inside the
buffer, and preserves the buffer invariants. -/
theorem fillList_spec (f : Nat → HealthState) :
    ∀ (L : List Nat) (cs : List Nat), (∀ idx ∈ L, idx / 4 < cs.length) →
      (∀ b ∈ cs, b < 256) → (∀ b ∈ cs, Valid4 b) →
      ∃ cs2, (L.foldlM (fun c i => write_state c i (f i)) cs) = some cs2 ∧
        cs2.length = cs.length ∧ (∀ b ∈ cs2, b < 256) ∧ (∀ b ∈ cs2, Valid4 b)
  | [], cs, _, hb, hv => ⟨cs, rfl, rfl, hb, hv⟩
  | i :: L, cs, hL, hb, hv => by
    obtain ⟨cs1, hw, hlen1, hb1, hv1⟩ :=
      write_state_spec cs i (f i) (hL i (by simp)) hb
    obtain ⟨cs2, hfold, hlen2, hb2, hv2⟩ := fillList_spec f L cs1
      (fun idx hidx => hlen1 ▸ hL idx (by simp [hidx])) hb1 (hv1 hv)
    refine ⟨cs2, ?_, hlen2.trans hlen1, hb2, hv2⟩
    rw [List.foldlM_cons, hw]
    exact hfold

theorem fillCells_spec (params : SirParams) (roll : Nat → ℚ) (size : Nat) :
    ∃ cells, fillCells params roll size (List.replicate ((size + 3) / 4) 0) =
        some cells ∧
      cells.length = (size + 3) / 4 ∧ (∀ b ∈ cells, b < 256) ∧
      (∀ b ∈ cells, Valid4 b) := by
  obtain ⟨cs2, h, hlen, hb, hv⟩ := fillList_spec
    (fun i => initState params (roll i)) (List.range size)
    (List.replicate ((size + 3) / 4) 0)
    (fun idx hidx => by
      rw [List.length_replicate]
      have := List.mem_range.1 hidx
      omega)
    (fun b hb => by rw [List.eq_of_mem_replicate hb]; omega)
    (fun b hb => by rw [List.eq_of_mem_replicate hb]; decide)
  exact ⟨cs2, h, by simpa using hlen, hb, hv⟩

/-- Successful construction: `Grid::init` returns a well-formed grid with
all fields valid whenever the two size checks pass. -/
theorem Grid.init_ok (w h : Nat) (params : SirParams) (roll : Nat → ℚ)
    (h1 : w * h ≤ USIZE_MAX) (h2 : w * h ≤ MAX_CELLS) :
    ∃ g, Grid.init w h params roll = .ok g ∧ g.grid_x = w ∧ g.grid_y = h ∧
      g.WF ∧ (∀ b ∈ g.cells, Valid4 b) := by
  obtain ⟨cells, hfill, hlen, hb, hv⟩ := fillCells_spec params roll (w * h)
  refine ⟨⟨w, h, cells⟩, ?_, rfl, rfl, ⟨by simpa [Grid.size] using hlen, hb⟩, hv⟩
  unfold Grid.init
  rw [if_neg (by omega), if_neg (by omega), hfill]

/-- Anything `Grid::init` returns successfully is well-formed, has valid
fields everywhere, and passed both size checks. -/
theorem Grid.init_ok_inv {w h : Nat} {params : SirParams} {roll : Nat → ℚ}
    {g : Grid} (hok : Grid.init w h params roll = .ok g) :
    g.grid_x = w ∧ g.grid_y = h ∧ g.WF ∧ (∀ b ∈ g.cells, Valid4 b) ∧
      w * h ≤ USIZE_MAX ∧ w * h ≤ MAX_CELLS := by
  by_cases h1 : w * h > USIZE_MAX
  · unfold Grid.init at hok
    rw [if_pos h1] at hok
    exact Except.noConfusion hok
  by_cases h2 : w * h > MAX_CELLS
  · unfold Grid.init at hok
    rw [if_neg h1, if_pos h2] at hok
    exact Except.noConfusion hok
  obtain ⟨cells, hfill, hlen, hb, hv⟩ := fillCells_spec params roll (w * h)
  unfold Grid.init at hok
  rw [if_neg h1, if_neg h2, hfill] at hok
  injection hok with hg
  subst hg
  exact ⟨rfl, rfl, ⟨by simpa [Grid.size] using hlen, hb⟩, hv, by omega, by omega⟩

/-- A grid whose fields all decode has no reachable `unreachable!` branch. -/
theorem Grid.decodable_of {g : Grid}
    (hlen : g.cells.length = (g.size + 3) / 4)
    (hv : ∀ b ∈ g.cells, Valid4 b) : g.Decodable := by
  intro i hi
  have h4 : i / 4 < g.cells.length := by omega
  have hget : g.cells[i / 4]? = some g.cells[i / 4] := List.getElem?_eq_getElem h4
  have hvb := hv _ (List.getElem_mem h4) (i % 4) (by omega)
  have hle : g.cells[i / 4] >>> (i % 4 * 2) &&& 3 ≤ 3 := Nat.and_le_right
  have hread : g.read i = decode2 (g.cells[i / 4] >>> (i % 4 * 2) &&& 3) := by
    unfold Grid.read
    rw [hget]
  rw [hread]
  have hcases : g.cells[i / 4] >>> (i % 4 * 2) &&& 3 = 0 ∨
      g.cells[i / 4] >>> (i % 4 * 2) &&& 3 = 1 ∨
      g.cells[i / 4] >>> (i % 4 * 2) &&& 3 = 2 ∨
      g.cells[i / 4] >>> (i % 4 * 2) &&& 3 = 3 := by omega
  rcases hcases with h | h | h | h <;> rw [h]
  · rfl
  · rfl
  · rfl
  · exact absurd h hvb

/-- C5 counterexample input: a 2³²×2³² request overflows 64-bit `usize`,
so although the (mathematical) product exceeds the 10⁹ ceiling, the failure
reported is DimensionOverflow, not GridTooLarge. -/
theorem C5_counterexample :
    MAX_CELLS < 2 ^ 32 * 2 ^ 32 ∧
    Grid.init (2 ^ 32) (2 ^ 32) ⟨0, 0, 1, 0, 1⟩ (fun _ => 0) ≠
      .error .GridTooLarge ∧
    Grid.init (2 ^ 32) (2 ^ 32) ⟨0, 0, 1, 0, 1⟩ (fun _ => 0) =
      .error .DimensionOverflow := by
  have he : Grid.init (2 ^ 32) (2 ^ 32) ⟨0, 0, 1, 0, 1⟩ (fun _ => 0) =
      .error .DimensionOverflow := by
    unfold Grid.init
    rw [if_pos (by norm_num [USIZE_MAX])]
  refine ⟨by norm_num [MAX_CELLS], by rw [he]; simp, he⟩

/-- C5 (amended): DimensionOverflow exactly when `width*height` overflows
the 64-bit address size; GridTooLarge exactly when the product does not
overflow and exceeds the 10⁹ ceiling; a grid is returned exactly when
neither failure applies. -/
theorem C5_init_error_conditions (w h : Nat) (params : SirParams)
    (roll : Nat → ℚ) :
    (Grid.init w h params roll = .error .DimensionOverflow ↔
      USIZE_MAX < w * h) ∧
    (Grid.init w h params roll = .error .GridTooLarge ↔
      (w * h ≤ USIZE_MAX ∧ MAX_CELLS < w * h)) ∧
    ((∃ g, Grid.init w h params roll = .ok g) ↔
      (w * h ≤ USIZE_MAX ∧ w * h ≤ MAX_CELLS)) := by
  by_cases h1 : w * h > USIZE_MAX
  · have he : Grid.init w h params roll = .error .DimensionOverflow := by
      unfold Grid.init
      rw [if_pos h1]
    rw [he]
    refine ⟨?_, ?_, ?_⟩ <;> simp <;> omega
  by_cases h2 : w * h > MAX_CELLS
  · have he : Grid.init w h params roll = .error .GridTooLarge := by
      unfold Grid.init
      rw [if_neg h1, if_pos h2]
    rw [he]
    refine ⟨?_, ?_, ?_⟩ <;> simp <;> omega
  obtain ⟨g, hok, -, -, -, -⟩ := Grid.init_ok w h params roll (by omega) (by omega)
  rw [hok]
  refine ⟨?_, ?_, ?_⟩ <;> simp <;> omega

/-! ### Reachable grids (C8) -/

/-- Grids producible by the public construction interface: `Grid::init`
followed by any sequence of successful `Grid::write` calls (each with a
valid `HealthState` argument, as the Rust type demands). -/
inductive Reachable : Grid → Prop where
  | init (w h : Nat) (params : SirParams) (roll : Nat → ℚ) (g : Grid) :
      Grid.init w h params roll = .ok g → Reachable g
  | write (g : Grid) (idx : Nat) (s : HealthState) (g2 : Grid) :
      Reachable g → g.write idx s = some g2 → Reachable g2

theorem reachable_invariants {g : Grid} (hr : Reachable g) :
    g.WF ∧ ∀ b ∈ g.cells, Valid4 b := by
  induction hr with
  | init w h params roll g hok =>
    obtain ⟨-, -, hWF, hv, -, -⟩ := Grid.init_ok_inv hok
    exact ⟨hWF, hv⟩
  | write g idx s g2 hre hw ih =>
    obtain ⟨⟨hlen, hb⟩, hv⟩ := ih
    unfold Grid.write at hw
    cases hws : write_state g.cells idx s with
    | none => rw [hws] at hw; exact Option.noConfusion hw
    | some cs =>
      rw [hws] at hw
      injection hw with hg2
      obtain ⟨hlen2, hb2, hv2⟩ := write_state_inv hws hb
      subst hg2
      exact ⟨⟨by simpa [Grid.size] using hlen2.trans hlen, hb2⟩, hv2 hv⟩

/-- C8: every grid reachable from `Grid::init` through valid writes keeps
every 2-bit field in {0,1,2} (pattern 3 is never produced), so every
in-bounds linear index decodes and the `unreachable!` branch of
`Grid::read` is dead. -/
theorem C8_reachable_cells_decode {g : Grid} (hr : Reachable g) :
    (∀ b ∈ g.cells, Valid4 b) ∧
    ∀ i < g.grid_x * g.grid_y, (g.read i).isSome := by
  obtain ⟨hWF, hv⟩ := reachable_invariants hr
  exact ⟨hv, fun i hi => Grid.decodable_of hWF.1 hv i hi⟩

theorem C8_reachable_cells_decode_witness :
    (∀ b ∈ (Grid.mk 2 2 [0]).cells, Valid4 b) ∧
    ∀ i < (Grid.mk 2 2 [0]).grid_x * (Grid.mk 2 2 [0]).grid_y,
      ((Grid.mk 2 2 [0]).read i).isSome :=
  C8_reachable_cells_decode
    (Reachable.init 2 2 ⟨0, 0, 1, 0, 1⟩ (fun _ => 0) (Grid.mk 2 2 [0]) rfl)

/-! ### Population counting (maths.rs) -/

/-- maths.rs `PopulationStats`. -/
structure PopulationStats where
  susceptible : Nat
  infected : Nat
  recovered : Nat
deriving DecidableEq

/-- The per-cell tally of the counting scan: increment the matching count. -/
def tallyStep (stats : PopulationStats) : HealthState → PopulationStats
  | .Susceptible => { stats with susceptible := stats.susceptible + 1 }
  | .Infected => { stats with infected := stats.infected + 1 }
  | .Recovered => { stats with recovered := stats.recovered + 1 }

/-- Modelled from the spec: `count_states` in src/utils/maths.rs is written
against a superseded unpacked grid layout (it imports a `Cell` struct with a
`state` field that the current grid.rs no longer defines), so it cannot be
read against the packed `Grid`.  The spec describes the operation as a
linear scan decoding every cell and tallying the three states; a decode
panic propagates (`none`). -/
def count_states (g : Grid) : Option PopulationStats :=
  (List.range g.size).foldlM
    (fun stats i => (g.read i).map (tallyStep stats)) ⟨0, 0, 0⟩

theorem tallyStep_sum (st : PopulationStats) (s : HealthState) :
    (tallyStep st s).susceptible + (tallyStep st s).infected +
        (tallyStep st s).recovered =
      st.susceptible + st.infected + st.recovered + 1 := by
  cases s <;> simp [tallyStep] <;> omega

theorem count_states_fold {g : Grid} :
    ∀ (L : List Nat) (st0 : PopulationStats),
      (∀ i ∈ L, (g.read i).isSome) →
      ∃ st, (L.foldlM
          (fun stats i => (g.read i).map (tallyStep stats)) st0) = some st ∧
        st.susceptible + st.infected + st.recovered =
          st0.susceptible + st0.infected + st0.recovered + L.length
  | [], st0, _ => ⟨st0, rfl, by simp⟩
  | i :: L, st0, hL => by
    have hsome := hL i (by simp)
    rw [Option.isSome_iff_exists] at hsome
    obtain ⟨s, hread⟩ := hsome
    obtain ⟨st, hfold, hsum⟩ := count_states_fold L (tallyStep st0 s)
      (fun j hj => hL j (by simp [hj]))
    refine ⟨st, ?_, ?_⟩
    · rw [List.foldlM_cons, hread]
      exact hfold
    · rw [hsum, tallyStep_sum]
      simp
      omega

/-- C3: the three population counts sum to `grid_x * grid_y`. -/
theorem C3_count_states_sum {g : Grid} (hdec : g.Decodable) :
    ∃ stats, count_states g = some stats ∧
      stats.susceptible + stats.infected + stats.recovered =
        g.grid_x * g.grid_y := by
  obtain ⟨st, hfold, hsum⟩ := count_states_fold (List.range g.size) ⟨0, 0, 0⟩
    (fun i hi => hdec i (List.mem_range.1 hi))
  exact ⟨st, hfold, by simpa [Grid.size] using hsum⟩

theorem C3_count_states_sum_witness :
    ∃ stats, count_states (Grid.mk 2 2 [0]) = some stats ∧
      stats.susceptible + stats.infected + stats.recovered = 2 * 2 :=
  C3_count_states_sum (by decide)

/-! ### Moore-neighborhood enumeration (`Grid::get_neighbors`) -/

/-- The (dy, dx) offsets enumerated by the nested `for dy in -1..=1 { for dx
in -1..=1 }` loops of `Grid::get_neighbors` and
`Tile::get_neighbors_healthstates`, with the center `(0, 0)` skipped:
`dy` is the outer loop, `dx` the inner one. -/
def mooreOffsets : List (Int × Int) :=
  [(-1, -1), (-1, 0), (-1, 1), (0, -1), (0, 1), (1, -1), (1, 0), (1, 1)]

/-- `Grid::get_neighbors`: `nx = x as isize + dx`, `ny = y as isize + dy`,
kept when `0 <= nx < grid_x` and `0 <= ny < grid_y`.  The Rust version
writes the surviving pairs into a caller buffer and returns the count; the
list of written entries is modelled. -/
def Grid.get_neighbors (g : Grid) (x y : Nat) : List (Nat × Nat) :=
  mooreOffsets.filterMap fun d =>
    if 0 ≤ (x : Int) + d.2 ∧ (x : Int) + d.2 < (g.grid_x : Int) ∧
        0 ≤ (y : Int) + d.1 ∧ (y : Int) + d.1 < (g.grid_y : Int) then
      some (((x : Int) + d.2).toNat, ((y : Int) + d.1).toNat)
    else none

/-- Every enumerated neighbor is inside the grid. -/
theorem get_neighbors_bounds {g : Grid} {x y : Nat} {p : Nat × Nat}
    (hp : p ∈ g.get_neighbors x y) : p.1 < g.grid_x ∧ p.2 < g.grid_y := by
  unfold Grid.get_neighbors at hp
  rw [List.mem_filterMap] at hp
  obtain ⟨d, -, heq⟩ := hp
  split at heq
  · injection heq with h2
    subst h2
    omega
  · exact Option.noConfusion heq

/-- Membership characterization: exactly the cells other than `(x, y)` at
Chebyshev distance at most 1 that lie inside the grid. -/
theorem mem_get_neighbors {g : Grid} {x y : Nat} (hx : x < g.grid_x)
    (hy : y < g.grid_y) (p : Nat × Nat) :
    p ∈ g.get_neighbors x y ↔
      (p.1 < g.grid_x ∧ p.2 < g.grid_y ∧ p ≠ (x, y) ∧
        x ≤ p.1 + 1 ∧ p.1 ≤ x + 1 ∧ y ≤ p.2 + 1 ∧ p.2 ≤ y + 1) := by
  unfold Grid.get_neighbors
  rw [List.mem_filterMap]
  constructor
  · rintro ⟨d, hd, heq⟩
    split at heq
    · injection heq with h2
      subst h2
      have hdne : d ≠ (0, 0) ∧ -1 ≤ d.1 ∧ d.1 ≤ 1 ∧ -1 ≤ d.2 ∧ d.2 ≤ 1 := by
        simp only [mooreOffsets, List.mem_cons, List.not_mem_nil, or_false] at hd
        rcases hd with h | h | h | h | h | h | h | h <;> subst h <;> refine ⟨by decide, by decide, by decide, by decide, by decide⟩
      obtain ⟨hne, h1, h2, h3, h4⟩ := hdne
      have hne2 : d.1 ≠ 0 ∨ d.2 ≠ 0 := by
        rcases Decidable.em (d.1 = 0) with h | h
        · right
          intro hc
          exact hne (Prod.ext h hc)
        · left
          exact h
      refine ⟨by omega, by omega, ?_, by omega, by omega, by omega, by omega⟩
      intro hc
      rw [Prod.ext_iff] at hc
      simp only at hc
      omega
    · exact Option.noConfusion heq
  · rintro ⟨h1, h2, hne, hb1, hb2, hb3, hb4⟩
    have hdx : (p.1 : Int) - x = -1 ∨ (p.1 : Int) - x = 0 ∨ (p.1 : Int) - x = 1 := by
      omega
    have hdy : (p.2 : Int) - y = -1 ∨ (p.2 : Int) - y = 0 ∨ (p.2 : Int) - y = 1 := by
      omega
    have hne2 : ¬(p.1 = x ∧ p.2 = y) := by
      intro hc
      exact hne (Prod.ext hc.1 hc.2)
    rcases hdy with hy1 | hy1 | hy1 <;> rcases hdx with hx1 | hx1 | hx1
    · exact ⟨(-1, -1), by decide, by rw [if_pos (by omega)]; exact congrArg some (Prod.ext (by omega) (by omega))⟩
    · exact ⟨(-1, 0), by decide, by rw [if_pos (by omega)]; exact congrArg some (Prod.ext (by omega) (by omega))⟩
    · exact ⟨(-1, 1), by decide, by rw [if_pos (by omega)]; exact congrArg some (Prod.ext (by omega) (by omega))⟩
    · exact ⟨(0, -1), by decide, by rw [if_pos (by omega)]; exact congrArg some (Prod.ext (by omega) (by omega))⟩
    · exact absurd ⟨by omega, by omega⟩ hne2
    · exact ⟨(0, 1), by decide, by rw [if_pos (by omega)]; exact congrArg some (Prod.ext (by omega) (by omega))⟩
    · exact ⟨(1, -1), by decide, by rw [if_pos (by omega)]; exact congrArg some (Prod.ext (by omega) (by omega))⟩
    · exact ⟨(1, 0), by decide, by rw [if_pos (by omega)]; exact congrArg some (Prod.ext (by omega) (by omega))⟩
    · exact ⟨(1, 1), by decide, by rw [if_pos (by omega)]; exact congrArg some (Prod.ext (by omega) (by omega))⟩

/-- The enumeration is strictly increasing in the row-major order
(`dy` outer, `dx` inner) of the source loops. -/
theorem get_neighbors_pairwise (g : Grid) (x y : Nat) :
    (g.get_neighbors x y).Pairwise
      (fun p q => p.2 < q.2 ∨ (p.2 = q.2 ∧ p.1 < q.1)) := by
  unfold Grid.get_neighbors
  refine List.Pairwise.filterMap _ ?_
    (show mooreOffsets.Pairwise
        (fun d e => d.1 < e.1 ∨ (d.1 = e.1 ∧ d.2 < e.2)) by decide)
  intro d e hR b hb b2 hb2
  rw [Option.mem_def] at hb hb2
  split at hb
  case isTrue hc =>
    split at hb2
    case isTrue hc2 =>
      injection hb with h1
      injection hb2 with h2
      subst h1
      subst h2
      simp only
      omega
    case isFalse => exact Option.noConfusion hb2
  case isFalse => exact Option.noConfusion hb

theorem length_filterMap_ite {α β : Type} (p : α → Prop) [DecidablePred p]
    (v : α → β) :
    ∀ l : List α,
      (l.filterMap fun a => if p a then some (v a) else none).length =
        l.countP fun a => decide (p a)
  | [] => rfl
  | a :: l => by
    by_cases h : p a <;>
      simp [List.filterMap_cons, List.countP_cons, h, length_filterMap_ite p v l]

/-- Closed form for the neighbor count of an in-bounds cell. -/
theorem get_neighbors_length (g : Grid) (x y : Nat) (hx : x < g.grid_x)
    (hy : y < g.grid_y) :
    (g.get_neighbors x y).length =
      ((if 1 ≤ x then 1 else 0) + 1 + (if x + 1 < g.grid_x then 1 else 0)) *
        ((if 1 ≤ y then 1 else 0) + 1 + (if y + 1 < g.grid_y then 1 else 0)) -
        1 := by
  unfold Grid.get_neighbors
  rw [length_filterMap_ite
    (fun d : Int × Int => 0 ≤ (x : Int) + d.2 ∧ (x : Int) + d.2 < (g.grid_x : Int) ∧
      0 ≤ (y : Int) + d.1 ∧ (y : Int) + d.1 < (g.grid_y : Int))
    (fun d : Int × Int => (((x : Int) + d.2).toNat, ((y : Int) + d.1).toNat))
    mooreOffsets]
  simp only [mooreOffsets, List.countP_cons, List.countP_nil,
    decide_eq_true_eq]
  have epp : (0 ≤ (x : Int) + 1 ∧ (x : Int) + 1 < (g.grid_x : Int) ∧
      0 ≤ (y : Int) + 1 ∧ (y : Int) + 1 < (g.grid_y : Int)) ↔
      (x + 1 < g.grid_x ∧ y + 1 < g.grid_y) := by omega
  have e0p : (0 ≤ (x : Int) + 0 ∧ (x : Int) + 0 < (g.grid_x : Int) ∧
      0 ≤ (y : Int) + 1 ∧ (y : Int) + 1 < (g.grid_y : Int)) ↔
      (y + 1 < g.grid_y) := by omega
  have emp : (0 ≤ (x : Int) + -1 ∧ (x : Int) + -1 < (g.grid_x : Int) ∧
      0 ≤ (y : Int) + 1 ∧ (y : Int) + 1 < (g.grid_y : Int)) ↔
      (1 ≤ x ∧ y + 1 < g.grid_y) := by omega
  have ep0 : (0 ≤ (x : Int) + 1 ∧ (x : Int) + 1 < (g.grid_x : Int) ∧
      0 ≤ (y : Int) + 0 ∧ (y : Int) + 0 < (g.grid_y : Int)) ↔
      (x + 1 < g.grid_x) := by omega
  have em0 : (0 ≤ (x : Int) + -1 ∧ (x : Int) + -1 < (g.grid_x : Int) ∧
      0 ≤ (y : Int) + 0 ∧ (y : Int) + 0 < (g.grid_y : Int)) ↔
      (1 ≤ x) := by omega
  have epm : (0 ≤ (x : Int) + 1 ∧ (x : Int) + 1 < (g.grid_x : Int) ∧
      0 ≤ (y : Int) + -1 ∧ (y : Int) + -1 < (g.grid_y : Int)) ↔
      (x + 1 < g.grid_x ∧ 1 ≤ y) := by omega
  have e0m : (0 ≤ (x : Int) + 0 ∧ (x : Int) + 0 < (g.grid_x : Int) ∧
      0 ≤ (y : Int) + -1 ∧ (y : Int) + -1 < (g.grid_y : Int)) ↔
      (1 ≤ y) := by omega
  have emm : (0 ≤ (x : Int) + -1 ∧ (x : Int) + -1 < (g.grid_x : Int) ∧
      0 ≤ (y : Int) + -1 ∧ (y : Int) + -1 < (g.grid_y : Int)) ↔
      (1 ≤ x ∧ 1 ≤ y) := by omega
  simp only [epp, e0p, emp, ep0, em0, epm, e0m, emm]
  by_cases h1 : 1 ≤ x <;> by_cases h2 : x + 1 < g.grid_x <;>
    by_cases h3 : 1 ≤ y <;> by_cases h4 : y + 1 < g.grid_y <;>
    simp [h1, h2, h3, h4]

/-- C7: `get_neighbors` enumerates exactly the in-bounds Moore neighbors
(center excluded), in the deterministic dy-outer/dx-inner order, and yields
3 for a corner, 5 for a non-corner edge cell, 8 for an interior cell. -/
theorem C7_get_neighbors_enumeration (g : Grid) (x y : Nat)
    (hw : 3 ≤ g.grid_x) (hh : 3 ≤ g.grid_y) (hx : x < g.grid_x)
    (hy : y < g.grid_y) :
    (∀ p : Nat × Nat, p ∈ g.get_neighbors x y ↔
      (p.1 < g.grid_x ∧ p.2 < g.grid_y ∧ p ≠ (x, y) ∧
        x ≤ p.1 + 1 ∧ p.1 ≤ x + 1 ∧ y ≤ p.2 + 1 ∧ p.2 ≤ y + 1)) ∧
    (g.get_neighbors x y).Pairwise
      (fun p q => p.2 < q.2 ∨ (p.2 = q.2 ∧ p.1 < q.1)) ∧
    (((x = 0 ∨ x = g.grid_x - 1) ∧ (y = 0 ∨ y = g.grid_y - 1)) →
      (g.get_neighbors x y).length = 3) ∧
    ((((x = 0 ∨ x = g.grid_x - 1) ∧ 0 < y ∧ y < g.grid_y - 1) ∨
      ((y = 0 ∨ y = g.grid_y - 1) ∧ 0 < x ∧ x < g.grid_x - 1)) →
      (g.get_neighbors x y).length = 5) ∧
    ((0 < x ∧ x < g.grid_x - 1 ∧ 0 < y ∧ y < g.grid_y - 1) →
      (g.get_neighbors x y).length = 8) := by
  refine ⟨mem_get_neighbors hx hy, get_neighbors_pairwise g x y, ?_, ?_, ?_⟩
  · intro hc
    rw [get_neighbors_length g x y hx hy]
    split_ifs <;> omega
  · intro hc
    rw [get_neighbors_length g x y hx hy]
    split_ifs <;> omega
  · intro hc
    rw [get_neighbors_length g x y hx hy]
    split_ifs <;> omega

theorem C7_get_neighbors_enumeration_witness :
    (∀ p : Nat × Nat, p ∈ (Grid.mk 3 3 []).get_neighbors 1 0 ↔
      (p.1 < (Grid.mk 3 3 []).grid_x ∧ p.2 < (Grid.mk 3 3 []).grid_y ∧
        p ≠ (1, 0) ∧ 1 ≤ p.1 + 1 ∧ p.1 ≤ 1 + 1 ∧ 0 ≤ p.2 + 1 ∧ p.2 ≤ 0 + 1)) ∧
    ((Grid.mk 3 3 []).get_neighbors 1 0).Pairwise
      (fun p q => p.2 < q.2 ∨ (p.2 = q.2 ∧ p.1 < q.1)) ∧
    (((1 = 0 ∨ 1 = (Grid.mk 3 3 []).grid_x - 1) ∧
        (0 = 0 ∨ 0 = (Grid.mk 3 3 []).grid_y - 1)) →
      ((Grid.mk 3 3 []).get_neighbors 1 0).length = 3) ∧
    ((((1 = 0 ∨ 1 = (Grid.mk 3 3 []).grid_x - 1) ∧ 0 < 0 ∧
          0 < (Grid.mk 3 3 []).grid_y - 1) ∨
      ((0 = 0 ∨ 0 = (Grid.mk 3 3 []).grid_y - 1) ∧ 0 < 1 ∧
          1 < (Grid.mk 3 3 []).grid_x - 1)) →
      ((Grid.mk 3 3 []).get_neighbors 1 0).length = 5) ∧
    ((0 < 1 ∧ 1 < (Grid.mk 3 3 []).grid_x - 1 ∧ 0 < 0 ∧
        0 < (Grid.mk 3 3 []).grid_y - 1) →
      ((Grid.mk 3 3 []).get_neighbors 1 0).length = 8) :=
  C7_get_neighbors_enumeration (Grid.mk 3 3 []) 1 0 (by decide) (by decide)
    (by decide) (by decide)

/-! ### Tiles and the tiler (grid.rs `Tile`, `tile_grid`) -/

/-- grid.rs `Tile`: a read-only rectangular view into a parent grid (the
`&'a Grid` reference becomes an embedded grid value; tiles never mutate
it). -/
structure Tile where
  origin_x : Nat
  origin_y : Nat
  tile_x : Nat
  tile_y : Nat
  grid : Grid
deriving DecidableEq

/-- `Tile::get_state`: translate local to global coordinates and read from
the parent grid; `some none` models the Rust `None` result (coordinate
outside the parent grid), outer `none` models a read panic. -/
def Tile.get_state (t : Tile) (x y : Nat) : Option (Option HealthState) :=
  if t.origin_x + x ≥ t.grid.grid_x ∨ t.origin_y + y ≥ t.grid.grid_y then
    some none
  else
    (t.grid.read (t.grid.get_index (t.origin_x + x) (t.origin_y + y))).map some

/-- `Tile::get_neighbors_healthstates`: enumerate the Moore offsets in the
source's dy-outer/dx-inner order; a neighbor whose tile-local coordinate is
negative fails the `isize -> usize` conversion and is skipped; otherwise
`get_state` either supplies a state (kept), reports out-of-grid (skipped),
or panics (propagated). -/
def Tile.get_neighbors_healthstates (t : Tile) (x y : Nat) :
    Option (List HealthState) :=
  mooreOffsets.foldlM
    (fun acc d =>
      if 0 ≤ (x : Int) + d.2 ∧ 0 ≤ (y : Int) + d.1 then
        match t.get_state ((x : Int) + d.2).toNat ((y : Int) + d.1).toNat with
        | none => none
        | some none => some acc
        | some (some s) => some (acc ++ [s])
      else some acc)
    []

/-- The tile pushed by the body of `tile_grid`'s nested loops: origin at
`(tile_x * tile_width, tile_y * tile_height)` with width/height clamped to
stay inside the grid. -/
def mkTile (g : Grid) (tw th tx ty : Nat) : Tile :=
  { origin_x := tx * tw
    origin_y := ty * th
    tile_x := min (tx * tw + tw) g.grid_x - tx * tw
    tile_y := min (ty * th + th) g.grid_y - ty * th
    grid := g }

/-- The nested loops of `tile_grid`: `tile_y` outer over
`ceil(grid_y / tile_height)` rows, `tile_x` inner over
`ceil(grid_x / tile_width)` columns. -/
def tile_gridTiles (g : Grid) (tile_width tile_height : Nat) : List Tile :=
  (List.range ((g.grid_y + tile_height - 1) / tile_height)).flatMap fun ty =>
    (List.range ((g.grid_x + tile_width - 1) / tile_width)).map fun tx =>
      mkTile g tile_width tile_height tx ty

/-- `tile_grid`: the two `(.. + tw - 1) / tw` computations divide by the
requested tile dimensions, so a zero tile width or height is a division by
zero, a Rust panic (`none`). -/
def tile_grid (g : Grid) (tile_width tile_height : Nat) :
    Option (List Tile) :=
  if tile_width = 0 ∨ tile_height = 0 then none
  else some (tile_gridTiles g tile_width tile_height)

/-- C10: `tile_grid` panics (divides by zero) exactly when a requested tile
dimension is zero; for `tile_width, tile_height >= 1` it is total. -/
theorem C10_tile_grid_zero_panics (g : Grid) (tw th : Nat) :
    tile_grid g tw th = none ↔ (tw = 0 ∨ th = 0) := by
  unfold tile_grid
  split_ifs with hc
  · simp [hc]
  · simp [hc]

/-! Row-major indexing of the flattened loop nest. -/

theorem flatMap_range_map_length {α : Type} (f : Nat → Nat → α) (b : Nat) :
    ∀ a, (((List.range a).flatMap fun q => (List.range b).map (f q))).length =
      a * b
  | 0 => by simp
  | a + 1 => by
    rw [List.range_succ, List.flatMap_append]
    simp [flatMap_range_map_length f b a, Nat.succ_mul]

theorem flatMap_range_map_getElem {α : Type} (f : Nat → Nat → α) (b : Nat) :
    ∀ (a q r : Nat), q < a → r < b →
      (((List.range a).flatMap fun j => (List.range b).map (f j)))[q * b + r]? =
        some (f q r)
  | 0, q, r, hq, _ => absurd hq (Nat.not_lt_zero q)
  | a + 1, q, r, hq, hr => by
    rw [List.range_succ, List.flatMap_append]
    by_cases hqa : q < a
    · rw [List.getElem?_append_left]
      · exact flatMap_range_map_getElem f b a q r hqa hr
      · rw [flatMap_range_map_length f b a]
        have h1 : q * b + r < (q + 1) * b := by
          rw [Nat.succ_mul]
          omega
        exact Nat.lt_of_lt_of_le h1 (Nat.mul_le_mul_right b hqa)
    · have hqe : q = a := by omega
      subst hqe
      rw [List.getElem?_append_right]
      · rw [flatMap_range_map_length f b q]
        simp only [List.flatMap_cons, List.flatMap_nil, List.append_nil,
          Nat.add_sub_cancel_left]
        rw [List.getElem?_map, List.getElem?_range hr]
        rfl
      · rw [flatMap_range_map_length f b q]
        omega

theorem mul_add_div_of_lt {b q r : Nat} (hb : 0 < b) (hr : r < b) :
    (q * b + r) / b = q := by
  rw [Nat.mul_comm, Nat.mul_add_div hb, Nat.div_eq_of_lt hr]
  omega

theorem mul_add_mod_of_lt {b q r : Nat} (hr : r < b) : (q * b + r) % b = r := by
  rw [Nat.mul_comm, Nat.mul_add_mod]
  exact Nat.mod_eq_of_lt hr

/-- Ceiling-division bound: an in-bounds coordinate's tile index is within
the tile count. -/
theorem div_lt_ceil {x w tw : Nat} (htw : 1 ≤ tw) (hx : x < w) :
    x / tw < (w + tw - 1) / tw := by
  have h1 : x / tw ≤ (w - 1) / tw := Nat.div_le_div_right (by omega)
  have hrw : w + tw - 1 = (w - 1) + tw := by omega
  rw [hrw, Nat.add_div_right _ (by omega)]
  omega

/-- The origin of an in-range tile lies strictly inside the grid. -/
theorem tile_origin_lt {w tw tx : Nat} (htw : 1 ≤ tw)
    (htx : tx < (w + tw - 1) / tw) : tx * tw < w := by
  rcases Nat.eq_zero_or_pos w with hw | hw
  · subst hw
    rw [show 0 + tw - 1 = tw - 1 by omega, Nat.div_eq_of_lt (by omega)] at htx
    omega
  have hrw : w + tw - 1 = (w - 1) + tw := by omega
  rw [hrw, Nat.add_div_right _ (by omega)] at htx
  have h1 : tx ≤ (w - 1) / tw := by omega
  have h2 : tx * tw ≤ (w - 1) / tw * tw := Nat.mul_le_mul_right tw h1
  have h3 : (w - 1) / tw * tw ≤ w - 1 := Nat.div_mul_le_self (w - 1) tw
  omega

/-- A cell is inside a tile's declared range. -/
def Tile.contains (t : Tile) (x y : Nat) : Prop :=
  t.origin_x ≤ x ∧ x < t.origin_x + t.tile_x ∧
  t.origin_y ≤ y ∧ y < t.origin_y + t.tile_y

instance (t : Tile) (x y : Nat) : Decidable (t.contains x y) := by
  unfold Tile.contains
  infer_instance

/-- Containment in an in-range tile is exactly "its tile indices are the
coordinate's quotients". -/
theorem mkTile_contains_iff {g : Grid} {tw th tx ty x y : Nat}
    (htw : 1 ≤ tw) (hth : 1 ≤ th)
    (hx : x < g.grid_x) (hy : y < g.grid_y) :
    (mkTile g tw th tx ty).contains x y ↔ (tx = x / tw ∧ ty = y / th) := by
  unfold mkTile Tile.contains
  simp only
  constructor
  · rintro ⟨h1, h2, h3, h4⟩
    have hx2 : x < tx * tw + tw := by omega
    have hy2 : y < ty * th + th := by omega
    have hdx : x / tw = tx := by
      refine Nat.div_eq_of_lt_le h1 ?_
      rw [Nat.succ_mul]
      exact hx2
    have hdy : y / th = ty := by
      refine Nat.div_eq_of_lt_le h3 ?_
      rw [Nat.succ_mul]
      exact hy2
    exact ⟨hdx.symm, hdy.symm⟩
  · rintro ⟨hdx, hdy⟩
    subst hdx
    subst hdy
    have hx1 : x / tw * tw ≤ x := Nat.div_mul_le_self x tw
    have hy1 : y / th * th ≤ y := Nat.div_mul_le_self y th
    have hx2 : x < x / tw * tw + tw := by
      have h := Nat.div_add_mod x tw
      have h2 : x % tw < tw := Nat.mod_lt x (by omega)
      have h3 : x / tw * tw = tw * (x / tw) := Nat.mul_comm _ _
      omega
    have hy2 : y < y / th * th + th := by
      have h := Nat.div_add_mod y th
      have h2 : y % th < th := Nat.mod_lt y (by omega)
      have h3 : y / th * th = th * (y / th) := Nat.mul_comm _ _
      omega
    refine ⟨hx1, by omega, hy1, by omega⟩

/-- Every tile produced by the tiler is a clamped view of its grid. -/
theorem tile_gridTiles_mem {g : Grid} {tw th : Nat} {t : Tile}
    (htw : 1 ≤ tw) (hth : 1 ≤ th) (ht : t ∈ tile_gridTiles g tw th) :
    t.grid = g ∧ t.origin_x + t.tile_x ≤ g.grid_x ∧
      t.origin_y + t.tile_y ≤ g.grid_y := by
  unfold tile_gridTiles at ht
  rw [List.mem_flatMap] at ht
  obtain ⟨ty, hty, hmem⟩ := ht
  rw [List.mem_map] at hmem
  obtain ⟨tx, htx, hmk⟩ := hmem
  rw [List.mem_range] at hty htx
  subst hmk
  have hox : tx * tw < g.grid_x := tile_origin_lt htw htx
  have hoy : ty * th < g.grid_y := tile_origin_lt hth hty
  refine ⟨rfl, ?_, ?_⟩ <;> simp only [mkTile] <;> omega

/-- C6: for tile dimensions >= 1, the tiler returns exactly
`ceil(width/tw) * ceil(height/th)` tiles, the tile at flattened position
`ty * ceil(width/tw) + tx` is the clamped tile with origin
`(tx*tw, ty*th)` (row-major order), every tile stays inside the grid, and
every grid cell lies in exactly one tile of the list. -/
theorem C6_tile_grid_partition (g : Grid) (tw th : Nat) (htw : 1 ≤ tw)
    (hth : 1 ≤ th) :
    ∃ ts, tile_grid g tw th = some ts ∧
      ts.length = ((g.grid_y + th - 1) / th) * ((g.grid_x + tw - 1) / tw) ∧
      (∀ ty < (g.grid_y + th - 1) / th, ∀ tx < (g.grid_x + tw - 1) / tw,
        ts[ty * ((g.grid_x + tw - 1) / tw) + tx]? = some (mkTile g tw th tx ty)) ∧
      (∀ t ∈ ts, t.grid = g ∧ t.origin_x + t.tile_x ≤ g.grid_x ∧
        t.origin_y + t.tile_y ≤ g.grid_y) ∧
      (∀ x < g.grid_x, ∀ y < g.grid_y,
        ∃! i : Fin ts.length, (ts.get i).contains x y) := by
  refine ⟨tile_gridTiles g tw th, by unfold tile_grid; rw [if_neg (by omega)],
    flatMap_range_map_length _ _ _, ?_, fun t ht => tile_gridTiles_mem htw hth ht, ?_⟩
  · intro ty hty tx htx
    exact flatMap_range_map_getElem _ _ _ ty tx hty htx
  · intro x hx y hy
    set ntx := (g.grid_x + tw - 1) / tw with hntx
    set nty := (g.grid_y + th - 1) / th with hnty
    have hlen : (tile_gridTiles g tw th).length = nty * ntx :=
      flatMap_range_map_length _ _ _
    have htxb : x / tw < ntx := div_lt_ceil htw hx
    have htyb : y / th < nty := div_lt_ceil hth hy
    have hib : y / th * ntx + x / tw < nty * ntx := by
      have h1 : y / th * ntx + x / tw < (y / th + 1) * ntx := by
        rw [Nat.succ_mul]
        omega
      exact Nat.lt_of_lt_of_le h1 (Nat.mul_le_mul_right ntx htyb)
    have hgetI : ∀ i : Fin (tile_gridTiles g tw th).length,
        (tile_gridTiles g tw th).get i =
          mkTile g tw th (i.val % ntx) (i.val / ntx) := by
      intro i
      have hi : i.val < nty * ntx := hlen ▸ i.isLt
      have hntxpos : 0 < ntx := by
        rcases Nat.eq_zero_or_pos ntx with hz | hp
        · rw [hz, Nat.mul_zero] at hi
          exact absurd hi (Nat.not_lt_zero _)
        · exact hp
      have hdecomp : i.val / ntx * ntx + i.val % ntx = i.val := by
        have h := Nat.div_add_mod i.val ntx
        have h2 : i.val / ntx * ntx = ntx * (i.val / ntx) := Nat.mul_comm _ _
        omega
      have hqlt : i.val / ntx < nty := by
        by_contra hc
        have h1 : nty * ntx ≤ i.val / ntx * ntx := by
          have := Nat.mul_le_mul_right ntx (by omega : nty ≤ i.val / ntx)
          omega
        have h2 : i.val / ntx * ntx ≤ i.val := Nat.div_mul_le_self _ _
        omega
      have hrlt : i.val % ntx < ntx := Nat.mod_lt _ hntxpos
      have hsome := flatMap_range_map_getElem
        (fun ty tx => mkTile g tw th tx ty) ntx nty (i.val / ntx) (i.val % ntx)
        hqlt hrlt
      rw [hdecomp] at hsome
      have hget := List.getElem?_eq_getElem
        (show i.val < (tile_gridTiles g tw th).length from i.isLt)
      rw [List.get_eq_getElem]
      have := hget.symm.trans hsome
      exact Option.some.inj this
    have hntxpos : 0 < ntx := Nat.lt_of_le_of_lt (Nat.zero_le (x / tw)) htxb
    refine ⟨⟨y / th * ntx + x / tw, by omega⟩, ?_, ?_⟩
    · dsimp only
      rw [hgetI, mkTile_contains_iff htw hth hx hy]
      exact ⟨mul_add_mod_of_lt htxb, mul_add_div_of_lt hntxpos htxb⟩
    · intro j hj
      rw [hgetI, mkTile_contains_iff htw hth hx hy] at hj
      obtain ⟨hj1, hj2⟩ := hj
      have hdecomp : j.val / ntx * ntx + j.val % ntx = j.val := by
        have h := Nat.div_add_mod j.val ntx
        have h2 : j.val / ntx * ntx = ntx * (j.val / ntx) := Nat.mul_comm _ _
        omega
      rw [hj1, hj2] at hdecomp
      apply Fin.ext
      simp only
      omega

theorem C6_tile_grid_partition_witness :
    ∃ ts, tile_grid (Grid.mk 5 3 []) 2 2 = some ts ∧
      ts.length = ((3 + 2 - 1) / 2) * ((5 + 2 - 1) / 2) ∧
      (∀ ty < (3 + 2 - 1) / 2, ∀ tx < (5 + 2 - 1) / 2,
        ts[ty * ((5 + 2 - 1) / 2) + tx]? =
          some (mkTile (Grid.mk 5 3 []) 2 2 tx ty)) ∧
      (∀ t ∈ ts, t.grid = Grid.mk 5 3 [] ∧ t.origin_x + t.tile_x ≤ 5 ∧
        t.origin_y + t.tile_y ≤ 3) ∧
      (∀ x < 5, ∀ y < 3, ∃! i : Fin ts.length, (ts.get i).contains x y) :=
  C6_tile_grid_partition (Grid.mk 5 3 []) 2 2 (by decide) (by decide)

/-! ### Tile neighbor-state enumeration (C1) -/

/-- Linear index of an in-bounds cell is within the cell count. -/
theorem get_index_lt {g : Grid} {x y : Nat} (hx : x < g.grid_x)
    (hy : y < g.grid_y) : g.get_index x y < g.size := by
  unfold Grid.get_index Grid.size
  have h1 : (y + 1) * g.grid_x ≤ g.grid_y * g.grid_x :=
    Nat.mul_le_mul_right _ (by omega)
  have h2 : y * g.grid_x + x < (y + 1) * g.grid_x := by
    rw [Nat.succ_mul]
    omega
  have h3 : g.grid_x * g.grid_y = g.grid_y * g.grid_x := Nat.mul_comm _ _
  omega

/-- Traversal invariant of `Tile::get_neighbors_healthstates`: over any
offset list, the collected states are exactly the reads of the grid's
in-bounds translated offsets that additionally lie at or beyond the tile's
origin (offsets with a negative tile-local coordinate are dropped before
the global translation). -/
theorem tile_fold_spec (t : Tile) (hdec : t.grid.Decodable) {x y : Nat}
    (hgx : t.origin_x + x < t.grid.grid_x)
    (hgy : t.origin_y + y < t.grid.grid_y) :
    ∀ (L : List (Int × Int)) (acc : List HealthState),
      (L.foldlM
          (fun acc2 d =>
            if 0 ≤ (x : Int) + d.2 ∧ 0 ≤ (y : Int) + d.1 then
              match t.get_state ((x : Int) + d.2).toNat ((y : Int) + d.1).toNat with
              | none => none
              | some none => some acc2
              | some (some s) => some (acc2 ++ [s])
            else some acc2)
          acc) =
        some (acc ++
          (((L.filterMap fun d =>
              if 0 ≤ ((t.origin_x + x : Nat) : Int) + d.2 ∧
                  ((t.origin_x + x : Nat) : Int) + d.2 < (t.grid.grid_x : Int) ∧
                  0 ≤ ((t.origin_y + y : Nat) : Int) + d.1 ∧
                  ((t.origin_y + y : Nat) : Int) + d.1 < (t.grid.grid_y : Int) then
                some ((((t.origin_x + x : Nat) : Int) + d.2).toNat,
                  (((t.origin_y + y : Nat) : Int) + d.1).toNat)
              else none).filter fun p =>
                decide (t.origin_x ≤ p.1 ∧ t.origin_y ≤ p.2)).filterMap fun p =>
            t.grid.read (t.grid.get_index p.1 p.2)))
  | [], acc => by simp
  | d :: L, acc => by
    rw [List.foldlM_cons, List.filterMap_cons]
    by_cases hA : 0 ≤ (x : Int) + d.2 ∧ 0 ≤ (y : Int) + d.1
    · rw [if_pos hA]
      by_cases hB : t.origin_x + ((x : Int) + d.2).toNat < t.grid.grid_x ∧
          t.origin_y + ((y : Int) + d.1).toNat < t.grid.grid_y
      · have hidx : t.grid.get_index (t.origin_x + ((x : Int) + d.2).toNat)
            (t.origin_y + ((y : Int) + d.1).toNat) < t.grid.size :=
          get_index_lt hB.1 hB.2
        have hsome := hdec _ hidx
        rw [Option.isSome_iff_exists] at hsome
        obtain ⟨s, hs⟩ := hsome
        have hgs : t.get_state ((x : Int) + d.2).toNat ((y : Int) + d.1).toNat =
            some (some s) := by
          unfold Tile.get_state
          rw [if_neg (by omega), hs]
          rfl
        rw [hgs]
        have hgf : (if 0 ≤ ((t.origin_x + x : Nat) : Int) + d.2 ∧
              ((t.origin_x + x : Nat) : Int) + d.2 < (t.grid.grid_x : Int) ∧
              0 ≤ ((t.origin_y + y : Nat) : Int) + d.1 ∧
              ((t.origin_y + y : Nat) : Int) + d.1 < (t.grid.grid_y : Int) then
            some ((((t.origin_x + x : Nat) : Int) + d.2).toNat,
              (((t.origin_y + y : Nat) : Int) + d.1).toNat)
          else none) =
            some (t.origin_x + ((x : Int) + d.2).toNat,
              t.origin_y + ((y : Int) + d.1).toNat) := by
          rw [if_pos (by omega)]
          exact congrArg some (Prod.ext (by omega) (by omega))
        rw [hgf, List.filter_cons,
          if_pos (by rw [decide_eq_true_eq]; exact ⟨by omega, by omega⟩),
          List.filterMap_cons]
        simp only [hs]
        have ih := tile_fold_spec t hdec hgx hgy L (acc ++ [s])
        exact ih.trans (by rw [List.append_assoc]; rfl)
      · have hgs : t.get_state ((x : Int) + d.2).toNat ((y : Int) + d.1).toNat =
            some none := by
          unfold Tile.get_state
          rw [if_pos (by omega)]
        rw [hgs]
        have hgf : (if 0 ≤ ((t.origin_x + x : Nat) : Int) + d.2 ∧
              ((t.origin_x + x : Nat) : Int) + d.2 < (t.grid.grid_x : Int) ∧
              0 ≤ ((t.origin_y + y : Nat) : Int) + d.1 ∧
              ((t.origin_y + y : Nat) : Int) + d.1 < (t.grid.grid_y : Int) then
            some ((((t.origin_x + x : Nat) : Int) + d.2).toNat,
              (((t.origin_y + y : Nat) : Int) + d.1).toNat)
          else none) = none := by
          rw [if_neg]
          omega
        rw [hgf]
        exact tile_fold_spec t hdec hgx hgy L acc
    · rw [if_neg hA]
      by_cases hB2 : 0 ≤ ((t.origin_x + x : Nat) : Int) + d.2 ∧
          ((t.origin_x + x : Nat) : Int) + d.2 < (t.grid.grid_x : Int) ∧
          0 ≤ ((t.origin_y + y : Nat) : Int) + d.1 ∧
          ((t.origin_y + y : Nat) : Int) + d.1 < (t.grid.grid_y : Int)
      · rw [if_pos hB2, List.filter_cons,
          if_neg (by rw [decide_eq_true_eq]; omega)]
        exact tile_fold_spec t hdec hgx hgy L acc
      · rw [if_neg hB2]
        exact tile_fold_spec t hdec hgx hgy L acc

/-- C1 counterexample: on a 2x1 grid whose left cell is Infected, tiled
1x1, the right tile's only cell has its left neighbor inside the parent
grid, yet the tile's neighbor-state enumeration is empty: the negative
tile-local offset is dropped before the global translation, so the filter
is not "the parent grid's bounds only". -/
theorem C1_counterexample :
    tile_grid (Grid.mk 2 1 [1]) 1 1 =
      some [Tile.mk 0 0 1 1 (Grid.mk 2 1 [1]),
        Tile.mk 1 0 1 1 (Grid.mk 2 1 [1])] ∧
    (Tile.mk 1 0 1 1 (Grid.mk 2 1 [1])).get_neighbors_healthstates 0 0 =
      some [] ∧
    ((Grid.mk 2 1 [1]).get_neighbors 1 0).map
        (fun p => (Grid.mk 2 1 [1]).read ((Grid.mk 2 1 [1]).get_index p.1 p.2)) =
      [some .Infected] ∧
    (some ([] : List HealthState) ≠ some [HealthState.Infected]) :=
  ⟨rfl, rfl, rfl, by simp⟩

/-- C1 (amended): for every tile produced by `tile_grid` and every local
cell within the tile's extent, `get_neighbors_healthstates` returns the
states of exactly those Moore neighbors of the cell's global position that
lie inside the parent grid's bounds AND at or beyond the tile's origin in
both axes: upper bounds are checked against the grid (a cell on a tile's
right/bottom edge sees neighbors of the adjacent tile), but neighbors at
negative tile-local offsets (left/top, when the origin is positive) are
dropped. -/
theorem C1_tile_neighbor_states {g : Grid} {tw th : Nat} {ts : List Tile}
    {t : Tile} (hts : tile_grid g tw th = some ts) (ht : t ∈ ts)
    (hdec : g.Decodable) {x y : Nat} (hx : x < t.tile_x) (hy : y < t.tile_y) :
    t.get_neighbors_healthstates x y =
      some (((g.get_neighbors (t.origin_x + x) (t.origin_y + y)).filter
          (fun p => decide (t.origin_x ≤ p.1 ∧ t.origin_y ≤ p.2))).filterMap
        (fun p => g.read (g.get_index p.1 p.2))) := by
  have hpos : ¬(tw = 0 ∨ th = 0) := by
    intro hc
    unfold tile_grid at hts
    rw [if_pos hc] at hts
    exact Option.noConfusion hts
  have hts2 : ts = tile_gridTiles g tw th := by
    unfold tile_grid at hts
    rw [if_neg hpos] at hts
    exact (Option.some.inj hts).symm
  subst hts2
  obtain ⟨hgrid, hcx, hcy⟩ := tile_gridTiles_mem (by omega) (by omega) ht
  have hdec2 : t.grid.Decodable := hgrid ▸ hdec
  have hgx : t.origin_x + x < t.grid.grid_x := by rw [hgrid]; omega
  have hgy : t.origin_y + y < t.grid.grid_y := by rw [hgrid]; omega
  have haux := tile_fold_spec t hdec2 hgx hgy mooreOffsets []
  rw [hgrid] at haux
  unfold Tile.get_neighbors_healthstates Grid.get_neighbors
  rw [haux]
  rw [List.nil_append]

theorem C1_tile_neighbor_states_witness :
    (Tile.mk 0 0 2 1 (Grid.mk 2 1 [1])).get_neighbors_healthstates 1 0 =
      some ((((Grid.mk 2 1 [1]).get_neighbors
            ((Tile.mk 0 0 2 1 (Grid.mk 2 1 [1])).origin_x + 1)
            ((Tile.mk 0 0 2 1 (Grid.mk 2 1 [1])).origin_y + 0)).filter
          (fun p => decide ((Tile.mk 0 0 2 1 (Grid.mk 2 1 [1])).origin_x ≤ p.1 ∧
            (Tile.mk 0 0 2 1 (Grid.mk 2 1 [1])).origin_y ≤ p.2))).filterMap
        (fun p => (Grid.mk 2 1 [1]).read ((Grid.mk 2 1 [1]).get_index p.1 p.2))) :=
  C1_tile_neighbor_states
    (show tile_grid (Grid.mk 2 1 [1]) 2 1 =
      some [Tile.mk 0 0 2 1 (Grid.mk 2 1 [1])] from rfl)
    (by simp) (by decide) (by decide) (by decide)

/-! ### The transition engine (simulation.rs)

simulation.rs calls an earlier Grid API (a neighbor query returning a
vector, and the tile's neighbor-state enumeration under the name
`get_neighbors`); the enumeration semantics modelled are those of the
current grid.rs, which both versions share.  The process-wide RNG is
determinized by an oracle `u : Nat → Nat → ℚ` giving the uniform draw
consumed by the cell at a given global coordinate — each cell consumes at
most one draw per step, so fixing the per-cell draws is what "the same
randomness" means when comparing the two step strategies. -/

/-- `count_infected_neighbors`: read every in-bounds Moore neighbor from
the (old) grid and count the Infected ones; a read panic propagates. -/
def count_infected_neighbors (g : Grid) (x y : Nat) : Option Nat :=
  ((g.get_neighbors x y).mapM fun c => g.read (g.get_index c.1 c.2)).map
    fun l => (l.filter fun s => decide (s = HealthState.Infected)).length

/-- `process_susceptible` with the cell's uniform draw `u`:
infection probability `(beta * k / 8) * dt`. -/
def process_susceptible (g : Grid) (x y : Nat) (params : SirParams)
    (u : ℚ) : Option HealthState :=
  (count_infected_neighbors g x y).map fun k =>
    if u < params.beta * (k : ℚ) / 8 * params.dt then HealthState.Infected
    else HealthState.Susceptible

/-- `process_infected` with the cell's uniform draw `u`:
recovery probability `gamma * dt`. -/
def process_infected (params : SirParams) (u : ℚ) : HealthState :=
  if u < params.gamma * params.dt then HealthState.Recovered
  else HealthState.Infected

/-- The body of `step_grid`'s loops for cell `(x, y)`: read the current
state and apply the matching rule, all against the frozen old grid `g`. -/
def nextStateDirect (g : Grid) (params : SirParams) (u : Nat → Nat → ℚ)
    (x y : Nat) : Option HealthState :=
  (g.read (g.get_index x y)).bind fun current =>
    match current with
    | .Susceptible => process_susceptible g x y params (u x y)
    | .Infected => some (process_infected params (u x y))
    | .Recovered => some HealthState.Recovered

/-- Row-major traversal of a `for y { for x }` loop nest. -/
def cellOrder (w h : Nat) : List (Nat × Nat) :=
  (List.range h).flatMap fun y => (List.range w).map fun x => (x, y)

/-- `step_grid`: clone the buffer, compute every cell from the frozen old
grid in row-major order, write into the clone, and return it (the Rust
version then replaces the caller's grid with it). -/
def step_grid (g : Grid) (params : SirParams) (u : Nat → Nat → ℚ) :
    Option Grid :=
  (cellOrder g.grid_x g.grid_y).foldlM
    (fun ng xy =>
      (nextStateDirect g params u xy.1 xy.2).bind fun updated =>
        ng.write (g.get_index xy.1 xy.2) updated)
    { g with cells := g.cells }

/-- The body of `step_tile`'s loops for tile-local cell `(x, y)`:
`get_state(x, y).unwrap()` (both the read panic and the unwrap-on-None
panic are `none`), the tile's neighbor-state enumeration, then the same
transition rules keyed by the cell's global coordinate. -/
def nextStateTile (t : Tile) (params : SirParams) (u : Nat → Nat → ℚ)
    (x y : Nat) : Option HealthState :=
  (match t.get_state x y with
    | none => none
    | some none => none
    | some (some s) => some s).bind fun current =>
  (t.get_neighbors_healthstates x y).bind fun neighbors =>
    match current with
    | .Susceptible =>
      some (if u (t.origin_x + x) (t.origin_y + y) <
          params.beta *
            (((neighbors.filter fun s => decide (s = HealthState.Infected)).length : Nat) : ℚ) /
            8 * params.dt
        then HealthState.Infected else HealthState.Susceptible)
    | .Infected =>
      some (if u (t.origin_x + x) (t.origin_y + y) < params.gamma * params.dt
        then HealthState.Recovered else HealthState.Infected)
    | .Recovered => some HealthState.Recovered

/-- `step_tile`: write each tile cell's next state into the shared output
grid at its global linear index. -/
def step_tile (t : Tile) (params : SirParams) (u : Nat → Nat → ℚ)
    (output : Grid) : Option Grid :=
  (cellOrder t.tile_x t.tile_y).foldlM
    (fun out xy =>
      (nextStateTile t params u xy.1 xy.2).bind fun new_state =>
        out.write (out.get_index (t.origin_x + xy.1) (t.origin_y + xy.2))
          new_state)
    output

/-- `step_grid_tiled`: allocate a fresh output grid via `Grid::init` with
dummy parameters (`i_ratio = 0`), tile the frozen input, and run every tile
into the shared output. -/
def step_grid_tiled (g : Grid) (params : SirParams) (tw th : Nat)
    (u : Nat → Nat → ℚ) (roll : Nat → ℚ) : Option Grid :=
  match Grid.init g.grid_x g.grid_y ⟨0, 0, 1, 0, 1⟩ roll with
  | .error _ => none
  | .ok next =>
    (tile_grid g tw th).bind fun tiles =>
      tiles.foldlM (fun out t => step_tile t params u out) next

/-! #### Traversal-order facts -/

theorem mem_cellOrder {w h : Nat} {xy : Nat × Nat} :
    xy ∈ cellOrder w h ↔ (xy.1 < w ∧ xy.2 < h) := by
  unfold cellOrder
  rw [List.mem_flatMap]
  constructor
  · rintro ⟨y, hy, hmem⟩
    rw [List.mem_map] at hmem
    obtain ⟨x, hx, hxy⟩ := hmem
    rw [List.mem_range] at hy hx
    subst hxy
    exact ⟨hx, hy⟩
  · rintro ⟨h1, h2⟩
    refine ⟨xy.2, List.mem_range.2 h2, ?_⟩
    rw [List.mem_map]
    exact ⟨xy.1, List.mem_range.2 h1, rfl⟩

theorem cellOrder_nodup (w h : Nat) :
    (cellOrder w h).Pairwise (fun a b => a ≠ b) := by
  unfold cellOrder
  induction h with
  | zero => simp
  | succ n ih =>
    rw [List.range_succ, List.flatMap_append]
    rw [List.pairwise_append]
    refine ⟨ih, ?_, ?_⟩
    · simp only [List.flatMap_cons, List.flatMap_nil, List.append_nil]
      rw [List.pairwise_map]
      refine (List.pairwise_lt_range w).imp ?_
      intro a b hab
      intro hc
      rw [Prod.ext_iff] at hc
      simp only at hc
      omega
    · intro a ha b hb
      rw [List.mem_flatMap] at ha
      obtain ⟨ya, hya, hmema⟩ := ha
      rw [List.mem_map] at hmema
      obtain ⟨xa, -, hxa⟩ := hmema
      rw [List.mem_range] at hya
      simp only [List.flatMap_cons, List.flatMap_nil, List.append_nil,
        List.mem_map] at hb
      obtain ⟨xb, -, hxb⟩ := hb
      subst hxa
      subst hxb
      intro hc
      rw [Prod.ext_iff] at hc
      simp only at hc
      omega

/-- Row-major linear indices are injective on in-bounds coordinates. -/
theorem index_inj {W x1 y1 x2 y2 : Nat} (h1 : x1 < W) (h2 : x2 < W)
    (he : y1 * W + x1 = y2 * W + x2) : x1 = x2 ∧ y1 = y2 := by
  have hm1 : (y1 * W + x1) % W = x1 := mul_add_mod_of_lt h1
  have hm2 : (y2 * W + x2) % W = x2 := mul_add_mod_of_lt h2
  have hd1 : (y1 * W + x1) / W = y1 := mul_add_div_of_lt (by omega) h1
  have hd2 : (y2 * W + x2) / W = y2 := mul_add_div_of_lt (by omega) h2
  rw [he] at hm1 hd1
  omega

/-! #### Option-traversal helpers -/

theorem mapM_isSome {α β : Type} (f : α → Option β) :
    ∀ {l : List α}, (∀ a ∈ l, (f a).isSome) → (l.mapM f).isSome
  | [], _ => rfl
  | a :: l, h => by
    have ha := h a (by simp)
    rw [Option.isSome_iff_exists] at ha
    obtain ⟨b, hb⟩ := ha
    have ih := @mapM_isSome α β f l
      (fun a2 ha2 => h a2 (List.mem_cons_of_mem a ha2))
    rw [Option.isSome_iff_exists] at ih
    obtain ⟨bs, hbs⟩ := ih
    rw [List.mapM_cons, hb, hbs]
    rfl

theorem mapM_eq_filterMap {α β : Type} (f : α → Option β) :
    ∀ {l : List α}, (∀ a ∈ l, (f a).isSome) →
      l.mapM f = some (l.filterMap f)
  | [], _ => rfl
  | a :: l, h => by
    have ha := h a (by simp)
    rw [Option.isSome_iff_exists] at ha
    obtain ⟨b, hb⟩ := ha
    have ih := @mapM_eq_filterMap α β f l
      (fun a2 ha2 => h a2 (List.mem_cons_of_mem a ha2))
    rw [List.mapM_cons, hb, ih, List.filterMap_cons, hb]
    rfl

/-- Under a decodable grid, the direct per-cell transition never panics. -/
theorem nextStateDirect_isSome {g : Grid} (hdec : g.Decodable)
    (params : SirParams) (u : Nat → Nat → ℚ) {x y : Nat}
    (hx : x < g.grid_x) (hy : y < g.grid_y) :
    (nextStateDirect g params u x y).isSome := by
  have hcell := hdec _ (get_index_lt hx hy)
  rw [Option.isSome_iff_exists] at hcell
  obtain ⟨c, hc⟩ := hcell
  unfold nextStateDirect
  rw [hc]
  cases c
  · show (process_susceptible g x y params (u x y)).isSome
    unfold process_susceptible count_infected_neighbors
    have hnb : ∀ a ∈ g.get_neighbors x y,
        ((fun c : Nat × Nat => g.read (g.get_index c.1 c.2)) a).isSome := by
      intro a ha
      have hb := get_neighbors_bounds ha
      exact hdec _ (get_index_lt hb.1 hb.2)
    have hm := @mapM_isSome (Nat × Nat) HealthState
      (fun c : Nat × Nat => g.read (g.get_index c.1 c.2))
      (g.get_neighbors x y) hnb
    rw [Option.isSome_iff_exists] at hm
    obtain ⟨l, hl⟩ := hm
    rw [hl]
    rfl
  · rfl
  · rfl

/-! #### A write-only loop over pairwise-distinct indices -/

/-- Specification of a loop that, per element, computes a value without
consulting the evolving grid and writes it at an in-bounds index, all
indices pairwise distinct: the loop succeeds, preserves dimensions and
well-formedness, each written index reads back its value, and every other
index is untouched. -/
theorem foldlM_write_spec {α : Type} (W H : Nat)
    (step : Grid → α → Option Grid) (ι : α → Nat)
    (v : α → Option HealthState) :
    ∀ (L : List α) (out : Grid),
      (∀ gg a, a ∈ L → gg.grid_x = W → gg.grid_y = H → gg.WF →
        step gg a = (v a).bind fun s => gg.write (ι a) s) →
      (∀ a ∈ L, ι a < W * H) →
      (∀ a ∈ L, (v a).isSome) →
      L.Pairwise (fun a b => ι a ≠ ι b) →
      out.grid_x = W → out.grid_y = H → out.WF →
      ∃ out2, L.foldlM step out = some out2 ∧ out2.grid_x = W ∧
        out2.grid_y = H ∧ out2.WF ∧
        (∀ a ∈ L, out2.read (ι a) = v a) ∧
        (∀ i, (∀ a ∈ L, ι a ≠ i) → out2.read i = out.read i)
  | [], out, _, _, _, _, hW, hH, hWF =>
    ⟨out, rfl, hW, hH, hWF, by simp, fun i _ => rfl⟩
  | a :: L, out, hstep, hι, hv, hpw, hW, hH, hWF => by
    have hva := hv a (by simp)
    rw [Option.isSome_iff_exists] at hva
    obtain ⟨s, hs⟩ := hva
    have hsize : ι a < out.size := by
      have := hι a (by simp)
      unfold Grid.size
      rw [hW, hH]
      exact this
    obtain ⟨g2, hwr, hgx, hgy, hlen, hbytes, hself, hother, -⟩ :=
      out.write_spec hWF.1 hWF.2 hsize s
    have hsz2 : g2.size = out.size := by
      unfold Grid.size
      rw [hgx, hgy]
    have hWF2 : g2.WF := by
      refine ⟨?_, hbytes⟩
      rw [hlen, hWF.1, hsz2]
    obtain ⟨hpwh, hpwt⟩ := List.pairwise_cons.1 hpw
    obtain ⟨out2, hfold, h1, h2, h3, hreads, hframe⟩ :=
      foldlM_write_spec W H step ι v L g2
        (fun gg a2 h2 => hstep gg a2 (List.mem_cons_of_mem a h2))
        (fun a2 h2 => hι a2 (List.mem_cons_of_mem a h2))
        (fun a2 h2 => hv a2 (List.mem_cons_of_mem a h2))
        hpwt (hgx.trans hW) (hgy.trans hH) hWF2
    refine ⟨out2, ?_, h1, h2, h3, ?_, ?_⟩
    · rw [List.foldlM_cons, hstep out a (by simp) hW hH hWF, hs]
      show (out.write (ι a) s >>= fun b => List.foldlM step b L) = some out2
      rw [hwr]
      exact hfold
    · intro b hb
      rcases List.mem_cons.1 hb with hba | hbL
      · subst hba
        have huntouched : ∀ a2 ∈ L, ι a2 ≠ ι b :=
          fun a2 h2 => fun hc => hpwh a2 h2 hc.symm
        rw [hframe (ι b) huntouched, hself, hs]
      · exact hreads b hbL
    · intro i hi
      have h4 : out2.read i = g2.read i :=
        hframe i (fun a2 h2 => hi a2 (List.mem_cons_of_mem a h2))
      rw [h4, hother i (fun hc => hi a (by simp) hc.symm)]

/-- Characterization of the direct step: it succeeds on a well-formed
decodable grid and every cell of the result reads as the transition of the
frozen input cell. -/
theorem step_grid_spec (g : Grid) (params : SirParams) (u : Nat → Nat → ℚ)
    (hWF : g.WF) (hdec : g.Decodable) :
    ∃ gd, step_grid g params u = some gd ∧ gd.grid_x = g.grid_x ∧
      gd.grid_y = g.grid_y ∧ gd.WF ∧
      ∀ x < g.grid_x, ∀ y < g.grid_y,
        gd.read (g.get_index x y) = nextStateDirect g params u x y := by
  obtain ⟨gd, hfold, h1, h2, h3, hreads, -⟩ :=
    foldlM_write_spec g.grid_x g.grid_y
      (fun ng xy =>
        (nextStateDirect g params u xy.1 xy.2).bind fun updated =>
          ng.write (g.get_index xy.1 xy.2) updated)
      (fun xy => g.get_index xy.1 xy.2)
      (fun xy => nextStateDirect g params u xy.1 xy.2)
      (cellOrder g.grid_x g.grid_y) { g with cells := g.cells }
      (fun gg a _ _ _ _ => rfl)
      (fun a ha => by
        have hm := mem_cellOrder.1 ha
        exact get_index_lt hm.1 hm.2)
      (fun a ha => by
        have hm := mem_cellOrder.1 ha
        exact nextStateDirect_isSome hdec params u hm.1 hm.2)
      ((cellOrder_nodup g.grid_x g.grid_y).imp_of_mem (by
        intro a b ha hb hne
        have hma := mem_cellOrder.1 ha
        have hmb := mem_cellOrder.1 hb
        intro hc
        unfold Grid.get_index at hc
        obtain ⟨hc1, hc2⟩ := index_inj hma.1 hmb.1 hc
        exact hne (Prod.ext hc1 hc2)))
      rfl rfl hWF
  exact ⟨gd, hfold, h1, h2, h3, fun x hx y hy =>
    hreads (x, y) (mem_cellOrder.2 ⟨hx, hy⟩)⟩

/-! #### Tile-step machinery -/

/-- `Tile::get_neighbors_healthstates` of an in-grid cell of a decodable
grid: the reads of the grid's Moore neighbors at or beyond the tile's
origin (the left/top neighbors at negative tile-local offsets are
dropped). -/
theorem tile_neighbors_eq (t : Tile) (hdec : t.grid.Decodable) {x y : Nat}
    (hgx : t.origin_x + x < t.grid.grid_x)
    (hgy : t.origin_y + y < t.grid.grid_y) :
    t.get_neighbors_healthstates x y =
      some (((t.grid.get_neighbors (t.origin_x + x) (t.origin_y + y)).filter
          (fun p => decide (t.origin_x ≤ p.1 ∧ t.origin_y ≤ p.2))).filterMap
        (fun p => t.grid.read (t.grid.get_index p.1 p.2))) := by
  have haux := tile_fold_spec t hdec hgx hgy mooreOffsets []
  unfold Tile.get_neighbors_healthstates Grid.get_neighbors
  rw [haux, List.nil_append]

/-- Under a decodable grid, the per-tile-cell transition never panics. -/
theorem nextStateTile_isSome (t : Tile) (params : SirParams)
    (u : Nat → Nat → ℚ) (hdec : t.grid.Decodable) {x y : Nat}
    (hgx : t.origin_x + x < t.grid.grid_x)
    (hgy : t.origin_y + y < t.grid.grid_y) :
    (nextStateTile t params u x y).isSome := by
  have hsome := hdec _ (get_index_lt hgx hgy)
  rw [Option.isSome_iff_exists] at hsome
  obtain ⟨s, hs⟩ := hsome
  have hgs : t.get_state x y = some (some s) := by
    unfold Tile.get_state
    rw [if_neg (by omega), hs]
    rfl
  unfold nextStateTile
  rw [hgs, tile_neighbors_eq t hdec hgx hgy]
  cases s <;> rfl

/-- The tile at flattened position `i` of the tiler's output. -/
theorem tile_gridTiles_get (g : Grid) (tw th : Nat)
    (i : Fin (tile_gridTiles g tw th).length) :
    (tile_gridTiles g tw th).get i =
      mkTile g tw th (i.val % ((g.grid_x + tw - 1) / tw))
        (i.val / ((g.grid_x + tw - 1) / tw)) := by
  have hlen : (tile_gridTiles g tw th).length =
      ((g.grid_y + th - 1) / th) * ((g.grid_x + tw - 1) / tw) :=
    flatMap_range_map_length _ _ _
  set ntx := (g.grid_x + tw - 1) / tw
  set nty := (g.grid_y + th - 1) / th
  have hi : i.val < nty * ntx := hlen ▸ i.isLt
  have hntxpos : 0 < ntx := by
    rcases Nat.eq_zero_or_pos ntx with hz | hp
    · rw [hz, Nat.mul_zero] at hi
      exact absurd hi (Nat.not_lt_zero _)
    · exact hp
  have hdecomp : i.val / ntx * ntx + i.val % ntx = i.val := by
    have h := Nat.div_add_mod i.val ntx
    have h2 : i.val / ntx * ntx = ntx * (i.val / ntx) := Nat.mul_comm _ _
    omega
  have hqlt : i.val / ntx < nty := by
    by_contra hc
    have h1 : nty * ntx ≤ i.val / ntx * ntx := by
      have := Nat.mul_le_mul_right ntx (by omega : nty ≤ i.val / ntx)
      omega
    have h2 : i.val / ntx * ntx ≤ i.val := Nat.div_mul_le_self _ _
    omega
  have hrlt : i.val % ntx < ntx := Nat.mod_lt _ hntxpos
  have hsome := flatMap_range_map_getElem
    (fun ty tx => mkTile g tw th tx ty) ntx nty (i.val / ntx) (i.val % ntx)
    hqlt hrlt
  rw [hdecomp] at hsome
  have hget := List.getElem?_eq_getElem
    (show i.val < (tile_gridTiles g tw th).length from i.isLt)
  rw [List.get_eq_getElem]
  exact Option.some.inj (hget.symm.trans hsome)

/-- Distinct tiles of the tiler's output contain no common cell. -/
theorem tile_gridTiles_disjoint (g : Grid) (tw th : Nat) (htw : 1 ≤ tw)
    (hth : 1 ≤ th) :
    (tile_gridTiles g tw th).Pairwise
      (fun t1 t2 => ∀ gx gy, ¬(t1.contains gx gy ∧ t2.contains gx gy)) := by
  rw [List.pairwise_iff_getElem]
  intro i j hi hj hij gx gy hc
  obtain ⟨hc1, hc2⟩ := hc
  have e1 := tile_gridTiles_get g tw th ⟨i, hi⟩
  have e2 := tile_gridTiles_get g tw th ⟨j, hj⟩
  rw [List.get_eq_getElem] at e1 e2
  have hm1 := tile_gridTiles_mem htw hth (e1 ▸ List.getElem_mem hi)
  rw [e1] at hc1
  rw [e2] at hc2
  set ntx := (g.grid_x + tw - 1) / tw
  have hgx : gx < g.grid_x := by
    obtain ⟨-, hb, -⟩ := hm1
    have hcc := hc1
    unfold Tile.contains at hcc
    omega
  have hgy : gy < g.grid_y := by
    obtain ⟨-, -, hb⟩ := hm1
    have hcc := hc1
    unfold Tile.contains at hcc
    omega
  rw [mkTile_contains_iff htw hth hgx hgy] at hc1 hc2
  obtain ⟨ha1, ha2⟩ := hc1
  obtain ⟨hb1, hb2⟩ := hc2
  have hd1 : i / ntx * ntx + i % ntx = i := by
    have h := Nat.div_add_mod i ntx
    have h2 : i / ntx * ntx = ntx * (i / ntx) := Nat.mul_comm _ _
    omega
  have hd2 : j / ntx * ntx + j % ntx = j := by
    have h := Nat.div_add_mod j ntx
    have h2 : j / ntx * ntx = ntx * (j / ntx) := Nat.mul_comm _ _
    omega
  have hvi : (⟨i, hi⟩ : Fin (tile_gridTiles g tw th).length).val = i := rfl
  have hvj : (⟨j, hj⟩ : Fin (tile_gridTiles g tw th).length).val = j := rfl
  rw [hvi] at ha1 ha2
  rw [hvj] at hb1 hb2
  rw [ha1, ha2] at hd1
  rw [hb1, hb2] at hd2
  omega

/-- Characterization of `step_tile` on a clamped tile of a decodable grid:
it writes exactly the tile's cells with their per-cell transition values
and leaves every other index untouched. -/
theorem step_tile_spec (t : Tile) (g : Grid) (params : SirParams)
    (u : Nat → Nat → ℚ) (ht : t.grid = g) (hdec : g.Decodable)
    (hcx : t.origin_x + t.tile_x ≤ g.grid_x)
    (hcy : t.origin_y + t.tile_y ≤ g.grid_y)
    (out : Grid) (hW : out.grid_x = g.grid_x) (hH : out.grid_y = g.grid_y)
    (hWF : out.WF) :
    ∃ out2, step_tile t params u out = some out2 ∧ out2.grid_x = g.grid_x ∧
      out2.grid_y = g.grid_y ∧ out2.WF ∧
      (∀ lx < t.tile_x, ∀ ly < t.tile_y,
        out2.read ((t.origin_y + ly) * g.grid_x + (t.origin_x + lx)) =
          nextStateTile t params u lx ly) ∧
      (∀ i, (∀ lx < t.tile_x, ∀ ly < t.tile_y,
          (t.origin_y + ly) * g.grid_x + (t.origin_x + lx) ≠ i) →
        out2.read i = out.read i) := by
  have hdec2 : t.grid.Decodable := ht ▸ hdec
  obtain ⟨out2, hfold, h1, h2, h3, hreads, hframe⟩ :=
    foldlM_write_spec g.grid_x g.grid_y
      (fun out xy =>
        (nextStateTile t params u xy.1 xy.2).bind fun new_state =>
          out.write (out.get_index (t.origin_x + xy.1) (t.origin_y + xy.2))
            new_state)
      (fun xy => (t.origin_y + xy.2) * g.grid_x + (t.origin_x + xy.1))
      (fun xy => nextStateTile t params u xy.1 xy.2)
      (cellOrder t.tile_x t.tile_y) out
      (by
        intro gg a ha hx hy hwf
        simp only [Grid.get_index, hx])
      (by
        intro a ha
        have hm := mem_cellOrder.1 ha
        have := @get_index_lt g (t.origin_x + a.1) (t.origin_y + a.2)
          (by omega) (by omega)
        exact this)
      (by
        intro a ha
        have hm := mem_cellOrder.1 ha
        exact nextStateTile_isSome t params u hdec2
          (by rw [ht]; omega) (by rw [ht]; omega))
      ((cellOrder_nodup t.tile_x t.tile_y).imp_of_mem (by
        intro a b ha hb hne hc
        have hma := mem_cellOrder.1 ha
        have hmb := mem_cellOrder.1 hb
        obtain ⟨h1, h2⟩ := index_inj (by omega) (by omega) hc
        exact hne (Prod.ext (by omega) (by omega))))
      hW hH hWF
  exact ⟨out2, hfold, h1, h2, h3,
    fun lx hlx ly hly => hreads (lx, ly) (mem_cellOrder.2 ⟨hlx, hly⟩),
    fun i hi => hframe i (fun a ha => by
      have hm := mem_cellOrder.1 ha
      exact hi a.1 hm.1 a.2 hm.2)⟩

/-- Folding `step_tile` over disjoint clamped tiles: every tile's cells
read as that tile's transitions, everything else is untouched. -/
theorem step_tiles_fold_spec (g : Grid) (params : SirParams)
    (u : Nat → Nat → ℚ) (hdec : g.Decodable) :
    ∀ (TL : List Tile),
      (∀ t ∈ TL, t.grid = g ∧ t.origin_x + t.tile_x ≤ g.grid_x ∧
        t.origin_y + t.tile_y ≤ g.grid_y) →
      TL.Pairwise
        (fun t1 t2 => ∀ gx gy, ¬(t1.contains gx gy ∧ t2.contains gx gy)) →
      ∀ out : Grid, out.grid_x = g.grid_x → out.grid_y = g.grid_y → out.WF →
      ∃ out2, TL.foldlM (fun o t => step_tile t params u o) out = some out2 ∧
        out2.grid_x = g.grid_x ∧ out2.grid_y = g.grid_y ∧ out2.WF ∧
        (∀ t ∈ TL, ∀ lx < t.tile_x, ∀ ly < t.tile_y,
          out2.read ((t.origin_y + ly) * g.grid_x + (t.origin_x + lx)) =
            nextStateTile t params u lx ly) ∧
        (∀ i, (∀ t ∈ TL, ∀ lx < t.tile_x, ∀ ly < t.tile_y,
            (t.origin_y + ly) * g.grid_x + (t.origin_x + lx) ≠ i) →
          out2.read i = out.read i)
  | [], _, _, out, hW, hH, hWF =>
    ⟨out, rfl, hW, hH, hWF, by simp, fun i _ => rfl⟩
  | t :: TL, hprops, hpw, out, hW, hH, hWF => by
    obtain ⟨ht, hcx, hcy⟩ := hprops t (by simp)
    obtain ⟨hpwh, hpwt⟩ := List.pairwise_cons.1 hpw
    obtain ⟨out1, hst, h1, h2, h3, hreads1, hframe1⟩ :=
      step_tile_spec t g params u ht hdec hcx hcy out hW hH hWF
    obtain ⟨out2, hfold, g1, g2, g3, hreads2, hframe2⟩ :=
      step_tiles_fold_spec g params u hdec TL
        (fun t2 h => hprops t2 (List.mem_cons_of_mem t h)) hpwt out1 h1 h2 h3
    refine ⟨out2, ?_, g1, g2, g3, ?_, ?_⟩
    · rw [List.foldlM_cons]
      show (step_tile t params u out >>= fun o =>
        List.foldlM (fun o t => step_tile t params u o) o TL) = some out2
      rw [hst]
      exact hfold
    · intro t2 hmem lx hlx ly hly
      rcases List.mem_cons.1 hmem with he | hTL
      · subst he
        have huntouched : ∀ t3 ∈ TL, ∀ lx3 < t3.tile_x, ∀ ly3 < t3.tile_y,
            (t3.origin_y + ly3) * g.grid_x + (t3.origin_x + lx3) ≠
              (t2.origin_y + ly) * g.grid_x + (t2.origin_x + lx) := by
          intro t3 h3 lx3 hlx3 ly3 hly3 hc
          obtain ⟨ht3, hcx3, hcy3⟩ := hprops t3 (List.mem_cons_of_mem t2 h3)
          obtain ⟨hi1, hi2⟩ := index_inj (by omega) (by omega) hc
          exact hpwh t3 h3 (t2.origin_x + lx) (t2.origin_y + ly)
            ⟨⟨by omega, by omega, by omega, by omega⟩,
              ⟨by omega, by omega, by omega, by omega⟩⟩
        rw [hframe2 _ huntouched]
        exact hreads1 lx hlx ly hly
      · exact hreads2 t2 hTL lx hlx ly hly
    · intro i hi
      have h4 : out2.read i = out1.read i :=
        hframe2 i (fun t2 h2 => hi t2 (List.mem_cons_of_mem t h2))
      rw [h4]
      exact hframe1 i (hi t (by simp))

/-- The tile holding cell `(x, y)`: local coordinates are the remainders
and they lie within the clamped extent. -/
theorem mkTile_home (g : Grid) {tw th x y : Nat} (htw : 1 ≤ tw)
    (hth : 1 ≤ th) (hx : x < g.grid_x) (hy : y < g.grid_y) :
    (mkTile g tw th (x / tw) (y / th)).origin_x + x % tw = x ∧
    (mkTile g tw th (x / tw) (y / th)).origin_y + y % th = y ∧
    x % tw < (mkTile g tw th (x / tw) (y / th)).tile_x ∧
    y % th < (mkTile g tw th (x / tw) (y / th)).tile_y := by
  unfold mkTile
  simp only
  have hdx : x / tw * tw + x % tw = x := by
    have h := Nat.div_add_mod x tw
    have h2 : x / tw * tw = tw * (x / tw) := Nat.mul_comm _ _
    omega
  have hdy : y / th * th + y % th = y := by
    have h := Nat.div_add_mod y th
    have h2 : y / th * th = th * (y / th) := Nat.mul_comm _ _
    omega
  have hmx : x % tw < tw := Nat.mod_lt x (by omega)
  have hmy : y % th < th := Nat.mod_lt y (by omega)
  refine ⟨by omega, by omega, by omega, by omega⟩

/-- The home tile of an in-bounds cell is produced by the tiler. -/
theorem mkTile_mem (g : Grid) {tw th x y : Nat} (htw : 1 ≤ tw)
    (hth : 1 ≤ th) (hx : x < g.grid_x) (hy : y < g.grid_y) :
    mkTile g tw th (x / tw) (y / th) ∈ tile_gridTiles g tw th := by
  unfold tile_gridTiles
  rw [List.mem_flatMap]
  exact ⟨y / th, List.mem_range.2 (div_lt_ceil hth hy),
    List.mem_map.2 ⟨x / tw, List.mem_range.2 (div_lt_ceil htw hx), rfl⟩⟩

/-- Characterization of the tiled step: it succeeds on a well-formed
decodable grid within the cell ceiling, and every cell of the result reads
as its home tile's transition of the frozen input. -/
theorem step_grid_tiled_spec (g : Grid) (params : SirParams) (tw th : Nat)
    (u : Nat → Nat → ℚ) (roll : Nat → ℚ) (hWF : g.WF) (hdec : g.Decodable)
    (hmax : g.grid_x * g.grid_y ≤ MAX_CELLS) (htw : 1 ≤ tw) (hth : 1 ≤ th) :
    ∃ gt, step_grid_tiled g params tw th u roll = some gt ∧
      gt.grid_x = g.grid_x ∧ gt.grid_y = g.grid_y ∧ gt.WF ∧
      ∀ x < g.grid_x, ∀ y < g.grid_y,
        gt.read (g.get_index x y) =
          nextStateTile (mkTile g tw th (x / tw) (y / th)) params u
            (x % tw) (y % th) := by
  have husize : g.grid_x * g.grid_y ≤ USIZE_MAX := by
    have h1 : MAX_CELLS ≤ USIZE_MAX := by norm_num [MAX_CELLS, USIZE_MAX]
    omega
  obtain ⟨next, hnok, hn1, hn2, hn3, -⟩ :=
    Grid.init_ok g.grid_x g.grid_y ⟨0, 0, 1, 0, 1⟩ roll husize hmax
  obtain ⟨out2, hfold, h1, h2, h3, hreads, -⟩ :=
    step_tiles_fold_spec g params u hdec (tile_gridTiles g tw th)
      (fun t h => tile_gridTiles_mem htw hth h)
      (tile_gridTiles_disjoint g tw th htw hth) next hn1 hn2 hn3
  refine ⟨out2, ?_, h1, h2, h3, ?_⟩
  · unfold step_grid_tiled
    rw [hnok]
    unfold tile_grid
    rw [if_neg (by omega)]
    exact hfold
  · intro x hx y hy
    obtain ⟨he1, he2, he3, he4⟩ := mkTile_home g htw hth hx hy
    have hr := hreads (mkTile g tw th (x / tw) (y / th))
      (mkTile_mem g htw hth hx hy) (x % tw) he3 (y % th) he4
    rw [he1, he2] at hr
    exact hr

/-- A Recovered cell's per-tile transition is Recovered. -/
theorem nextStateTile_recovered (t : Tile) (params : SirParams)
    (u : Nat → Nat → ℚ) (hdec : t.grid.Decodable) {x y : Nat}
    (hgx : t.origin_x + x < t.grid.grid_x)
    (hgy : t.origin_y + y < t.grid.grid_y)
    (hrec : t.grid.read
        (t.grid.get_index (t.origin_x + x) (t.origin_y + y)) =
      some HealthState.Recovered) :
    nextStateTile t params u x y = some HealthState.Recovered := by
  have hgs : t.get_state x y = some (some HealthState.Recovered) := by
    unfold Tile.get_state
    rw [if_neg (by omega), hrec]
    rfl
  unfold nextStateTile
  rw [hgs, tile_neighbors_eq t hdec hgx hgy]
  rfl

/-- C4: Recovered is terminal.  For any parameters and RNG draws, a
Recovered cell is still Recovered after one direct step and after one
tiled step; there is no transition out of Recovered. -/
theorem C4_recovered_terminal (g : Grid) (params : SirParams) (tw th : Nat)
    (u : Nat → Nat → ℚ) (roll : Nat → ℚ) (x y : Nat)
    (hWF : g.WF) (hdec : g.Decodable)
    (hmax : g.grid_x * g.grid_y ≤ MAX_CELLS) (htw : 1 ≤ tw) (hth : 1 ≤ th)
    (hx : x < g.grid_x) (hy : y < g.grid_y)
    (hrec : g.read (g.get_index x y) = some HealthState.Recovered) :
    ((step_grid g params u).bind fun gd => gd.read (g.get_index x y)) =
      some HealthState.Recovered ∧
    ((step_grid_tiled g params tw th u roll).bind fun gt =>
        gt.read (g.get_index x y)) = some HealthState.Recovered := by
  constructor
  · obtain ⟨gd, hstep, -, -, -, hreads⟩ := step_grid_spec g params u hWF hdec
    rw [hstep]
    show gd.read (g.get_index x y) = some HealthState.Recovered
    rw [hreads x hx y hy]
    unfold nextStateDirect
    rw [hrec]
    rfl
  · obtain ⟨gt, hstep, -, -, -, hreads⟩ :=
      step_grid_tiled_spec g params tw th u roll hWF hdec hmax htw hth
    rw [hstep]
    show gt.read (g.get_index x y) = some HealthState.Recovered
    rw [hreads x hx y hy]
    obtain ⟨he1, he2, he3, he4⟩ := mkTile_home g htw hth hx hy
    apply nextStateTile_recovered
    · show g.Decodable
      exact hdec
    · show (mkTile g tw th (x / tw) (y / th)).origin_x + x % tw < g.grid_x
      omega
    · show (mkTile g tw th (x / tw) (y / th)).origin_y + y % th < g.grid_y
      omega
    · show g.read (g.get_index
          ((mkTile g tw th (x / tw) (y / th)).origin_x + x % tw)
          ((mkTile g tw th (x / tw) (y / th)).origin_y + y % th)) =
        some HealthState.Recovered
      rw [he1, he2]
      exact hrec

theorem C4_recovered_terminal_witness :
    ((step_grid (Grid.mk 1 1 [2]) ⟨1, 1, 1, 0, 1⟩ (fun _ _ => 0)).bind
        fun gd => gd.read ((Grid.mk 1 1 [2]).get_index 0 0)) =
      some HealthState.Recovered ∧
    ((step_grid_tiled (Grid.mk 1 1 [2]) ⟨1, 1, 1, 0, 1⟩ 1 1 (fun _ _ => 0)
          (fun _ => 0)).bind
        fun gt => gt.read ((Grid.mk 1 1 [2]).get_index 0 0)) =
      some HealthState.Recovered :=
  C4_recovered_terminal (Grid.mk 1 1 [2]) ⟨1, 1, 1, 0, 1⟩ 1 1 (fun _ _ => 0)
    (fun _ => 0) 0 0 (by constructor <;> decide) (by decide) (by decide)
    (by decide) (by decide) (by decide) (by decide) (by decide)

/-! ### Direct step vs tiled step (C2) -/

/-- Away from a tile's left and top edges (or when those edges sit on the
grid boundary), the per-tile transition of a cell's home tile coincides
with the direct per-cell transition. -/
theorem nextStateTile_eq_direct (g : Grid) (params : SirParams)
    (u : Nat → Nat → ℚ) (hdec : g.Decodable) {tw th x y : Nat}
    (htw : 1 ≤ tw) (hth : 1 ≤ th) (hx : x < g.grid_x) (hy : y < g.grid_y)
    (hex : x % tw = 0 → x = 0) (hey : y % th = 0 → y = 0) :
    nextStateTile (mkTile g tw th (x / tw) (y / th)) params u
        (x % tw) (y % th) =
      nextStateDirect g params u x y := by
  obtain ⟨he1, he2, he3, he4⟩ := mkTile_home g htw hth hx hy
  have hsome := hdec _ (get_index_lt hx hy)
  rw [Option.isSome_iff_exists] at hsome
  obtain ⟨c, hc⟩ := hsome
  have hgs : (mkTile g tw th (x / tw) (y / th)).get_state (x % tw) (y % th) =
      some (some c) := by
    unfold Tile.get_state
    rw [if_neg (by
      show ¬((mkTile g tw th (x / tw) (y / th)).origin_x + x % tw ≥ g.grid_x ∨
        (mkTile g tw th (x / tw) (y / th)).origin_y + y % th ≥ g.grid_y)
      omega)]
    show (g.read (g.get_index
        ((mkTile g tw th (x / tw) (y / th)).origin_x + x % tw)
        ((mkTile g tw th (x / tw) (y / th)).origin_y + y % th))).map some =
      some (some c)
    rw [he1, he2, hc]
    rfl
  have hnb := tile_neighbors_eq (mkTile g tw th (x / tw) (y / th))
    (show (mkTile g tw th (x / tw) (y / th)).grid.Decodable from hdec)
    (show (mkTile g tw th (x / tw) (y / th)).origin_x + x % tw < g.grid_x by
      omega)
    (show (mkTile g tw th (x / tw) (y / th)).origin_y + y % th < g.grid_y by
      omega)
  rw [he1, he2] at hnb
  have hgr : (mkTile g tw th (x / tw) (y / th)).grid = g := rfl
  rw [hgr] at hnb
  have hfilter : (g.get_neighbors x y).filter
      (fun p => decide ((mkTile g tw th (x / tw) (y / th)).origin_x ≤ p.1 ∧
        (mkTile g tw th (x / tw) (y / th)).origin_y ≤ p.2)) =
      g.get_neighbors x y := by
    rw [List.filter_eq_self]
    intro p hp
    rw [decide_eq_true_eq]
    obtain ⟨hb1, hb2, hb3, hb4, hb5, hb6, hb7⟩ :=
      (mem_get_neighbors hx hy p).1 hp
    constructor
    · rcases Nat.eq_zero_or_pos (x % tw) with h0 | hpos
      · have hx0 := hex h0
        omega
      · omega
    · rcases Nat.eq_zero_or_pos (y % th) with h0 | hpos
      · have hy0 := hey h0
        omega
      · omega
  rw [hfilter] at hnb
  have hnbr : ∀ a ∈ g.get_neighbors x y,
      ((fun c : Nat × Nat => g.read (g.get_index c.1 c.2)) a).isSome := by
    intro a ha
    have hb := get_neighbors_bounds ha
    exact hdec _ (get_index_lt hb.1 hb.2)
  have hcount : count_infected_neighbors g x y =
      some (((g.get_neighbors x y).filterMap
          (fun p => g.read (g.get_index p.1 p.2))).filter
        (fun s => decide (s = HealthState.Infected))).length := by
    unfold count_infected_neighbors
    rw [@mapM_eq_filterMap (Nat × Nat) HealthState
      (fun c : Nat × Nat => g.read (g.get_index c.1 c.2))
      (g.get_neighbors x y) hnbr]
    rfl
  unfold nextStateTile nextStateDirect
  rw [hgs, hnb, hc, he1, he2]
  cases c
  · show some _ = process_susceptible g x y params (u x y)
    unfold process_susceptible
    rw [hcount]
    rfl
  · rfl
  · rfl

/-- The concrete grid of the C2 counterexample: 2x1, left cell Infected,
right cell Susceptible. -/
def cexGrid : Grid := Grid.mk 2 1 [1]

/-- Parameters of the counterexample: beta = 1, gamma = 0, dt = 1. -/
def cexParams : SirParams := ⟨1, 0, 1, 0, 1⟩

/-- C2 counterexample: with per-cell draws fixed to 0, after one step the
right cell of `cexGrid` is Infected under the direct step (its left
neighbor is Infected, so `p = 1/8 > 0`), but still Susceptible under the
1x1-tiled step (the tile drops the left neighbor, so `p = 0`): the two
strategies are not equivalent. -/
theorem C2_counterexample :
    ((step_grid cexGrid cexParams (fun _ _ => 0)).bind
        fun gd => gd.read (cexGrid.get_index 1 0)) =
      some HealthState.Infected ∧
    ((step_grid_tiled cexGrid cexParams 1 1 (fun _ _ => 0) (fun _ => 0)).bind
        fun gt => gt.read (cexGrid.get_index 1 0)) =
      some HealthState.Susceptible ∧
    (some HealthState.Infected ≠ some HealthState.Susceptible) := by
  obtain ⟨gd, hds, -, -, -, hdreads⟩ :=
    step_grid_spec cexGrid cexParams (fun _ _ => 0)
      (by constructor <;> decide) (by decide)
  obtain ⟨gt, hts, -, -, -, htreads⟩ :=
    step_grid_tiled_spec cexGrid cexParams 1 1 (fun _ _ => 0) (fun _ => 0)
      (by constructor <;> decide) (by decide) (by decide) (by decide)
      (by decide)
  refine ⟨?_, ?_, by simp⟩
  · rw [hds]
    show gd.read (cexGrid.get_index 1 0) = some HealthState.Infected
    rw [hdreads 1 (by decide) 0 (by decide)]
    unfold nextStateDirect
    rw [show cexGrid.read (cexGrid.get_index 1 0) =
      some HealthState.Susceptible from rfl]
    show process_susceptible cexGrid 1 0 cexParams 0 = some HealthState.Infected
    unfold process_susceptible
    rw [show count_infected_neighbors cexGrid 1 0 = some 1 from rfl]
    show some (if (0 : ℚ) < cexParams.beta * ((1 : Nat) : ℚ) / 8 * cexParams.dt
      then HealthState.Infected else HealthState.Susceptible) =
      some HealthState.Infected
    split
    · rfl
    case isFalse h =>
      exfalso
      apply h
      show (0 : ℚ) < 1 * ((1 : Nat) : ℚ) / 8 * 1
      norm_num
  · rw [hts]
    show gt.read (cexGrid.get_index 1 0) = some HealthState.Susceptible
    rw [htreads 1 (by decide) 0 (by decide)]
    show nextStateTile (mkTile cexGrid 1 1 1 0) cexParams (fun _ _ => 0) 0 0 =
      some HealthState.Susceptible
    unfold nextStateTile
    rw [show (mkTile cexGrid 1 1 1 0).get_state 0 0 =
      some (some HealthState.Susceptible) from rfl]
    rw [show (mkTile cexGrid 1 1 1 0).get_neighbors_healthstates 0 0 =
      some [] from rfl]
    show some (if (0 : ℚ) < cexParams.beta * ((0 : Nat) : ℚ) / 8 * cexParams.dt
      then HealthState.Infected else HealthState.Susceptible) =
      some HealthState.Susceptible
    split
    case isTrue h =>
      exfalso
      revert h
      show ¬((0 : ℚ) < 1 * ((0 : Nat) : ℚ) / 8 * 1)
      norm_num
    · rfl

/-- C2 (amended): both steps compute every output cell from the frozen
input only (read-old/write-new, by construction of both loops), and with
the same per-cell draws they agree at every cell that is not on its tile's
left or top edge with a positive origin; in particular the two strategies
coincide whenever a single tile covers the whole grid.  At left/top tile
edges the tiled step omits the neighbors at negative tile-local offsets,
so its infected-neighbor count — and hence the result — can differ. -/
theorem C2_step_agreement (g : Grid) (params : SirParams) (tw th : Nat)
    (u : Nat → Nat → ℚ) (roll : Nat → ℚ) (hWF : g.WF) (hdec : g.Decodable)
    (hmax : g.grid_x * g.grid_y ≤ MAX_CELLS) (htw : 1 ≤ tw) (hth : 1 ≤ th) :
    ∃ gd gt, step_grid g params u = some gd ∧
      step_grid_tiled g params tw th u roll = some gt ∧
      ∀ x, x < g.grid_x → ∀ y, y < g.grid_y → (x % tw = 0 → x = 0) →
        (y % th = 0 → y = 0) →
        gt.read (g.get_index x y) = gd.read (g.get_index x y) := by
  obtain ⟨gd, hds, -, -, -, hdreads⟩ := step_grid_spec g params u hWF hdec
  obtain ⟨gt, hts, -, -, -, htreads⟩ :=
    step_grid_tiled_spec g params tw th u roll hWF hdec hmax htw hth
  refine ⟨gd, gt, hds, hts, ?_⟩
  intro x hx y hy hex hey
  rw [hdreads x hx y hy, htreads x hx y hy]
  exact nextStateTile_eq_direct g params u hdec htw hth hx hy hex hey

theorem C2_step_agreement_witness :
    ∃ gd gt, step_grid (Grid.mk 2 1 [1]) ⟨1, 0, 1, 0, 1⟩ (fun _ _ => 0) =
        some gd ∧
      step_grid_tiled (Grid.mk 2 1 [1]) ⟨1, 0, 1, 0, 1⟩ 2 1 (fun _ _ => 0)
          (fun _ => 0) = some gt ∧
      ∀ x, x < (Grid.mk 2 1 [1]).grid_x → ∀ y, y < (Grid.mk 2 1 [1]).grid_y →
        (x % 2 = 0 → x = 0) → (y % 1 = 0 → y = 0) →
        gt.read ((Grid.mk 2 1 [1]).get_index x y) =
          gd.read ((Grid.mk 2 1 [1]).get_index x y) :=
  C2_step_agreement (Grid.mk 2 1 [1]) ⟨1, 0, 1, 0, 1⟩ 2 1 (fun _ _ => 0)
    (fun _ => 0) (by constructor <;> decide) (by decide) (by decide)
    (by decide) (by decide)

end SIR
